import Mathlib

/-!
Verification of the axio-collections data-processing core against its
specification.  The Python operations of `src/data_processing_utils.py`
(and the delta computation of `src/data_processing.py`) are shallowly
embedded over lists of records; tables are lists of rows, missing values
(`NaN` / `NaT`) are `none`, numeric columns are rationals and date
columns are calendar dates.
-/

/-- A calendar date, as held by the `due_date` and `created_at` columns. -/
structure Date where
  y : Nat
  m : Nat
  d : Nat
deriving DecidableEq, Inhabited

/-- Gregorian leap-year test. -/
def isLeap (y : Nat) : Bool := (y % 4 == 0 && y % 100 != 0) || y % 400 == 0

/-- Number of days in month `m` of year `y`. -/
def daysInMonth (y m : Nat) : Nat :=
  if m = 2 then (if isLeap y then 29 else 28)
  else if m = 4 ∨ m = 6 ∨ m = 9 ∨ m = 11 then 30
  else 31

/-- Calendar order on dates: lexicographic on (year, month, day). -/
def dateLe (a b : Date) : Bool :=
  decide (a.y < b.y ∨ (a.y = b.y ∧ (a.m < b.m ∨ (a.m = b.m ∧ a.d ≤ b.d))))

/-- Embeds `dt + relativedelta(months=k)`: calendar-month arithmetic with
the day-of-month clamped to the length of the target month, as dateutil
normalises it. -/
def addMonths (dt : Date) (k : Nat) : Date :=
  let t := dt.y * 12 + (dt.m - 1) + k
  let ny := t / 12
  let nm := t % 12 + 1
  ⟨ny, nm, min dt.d (daysInMonth ny nm)⟩

/-- Embeds `dt - relativedelta(days=1)`. -/
def subOneDay (dt : Date) : Date :=
  if 1 < dt.d then ⟨dt.y, dt.m, dt.d - 1⟩
  else if 1 < dt.m then ⟨dt.y, dt.m - 1, daysInMonth dt.y (dt.m - 1)⟩
  else ⟨dt.y - 1, 12, 31⟩

/-- Lower-cased three-letter month abbreviation, as produced by
`strftime('%b').lower()` in the C locale. -/
def monthAbbrev (m : Nat) : String :=
  if m = 1 then "jan" else if m = 2 then "feb" else if m = 3 then "mar"
  else if m = 4 then "apr" else if m = 5 then "may" else if m = 6 then "jun"
  else if m = 7 then "jul" else if m = 8 then "aug" else if m = 9 then "sep"
  else if m = 10 then "oct" else if m = 11 then "nov" else "dec"

/-- Two-digit zero-padded year, as produced by `strftime('%y')`. -/
def twoDigitYear (y : Nat) : String :=
  if y % 100 < 10 then "0" ++ toString (y % 100) else toString (y % 100)

/-- Window label `current_start.strftime('%b_%y').lower()`. -/
def dateKey (dt : Date) : String := monthAbbrev dt.m ++ "_" ++ twoDigitYear dt.y

/-- Embedding of `training_set_split`.  It is generic over the row type;
`dateOf` plays the role of the `date_col_name` column lookup.  A `none`
date is pandas `NaT`, for which both bound comparisons evaluate false, so
the row is selected by no window. -/
def training_set_split {α : Type} (start : Date)
    (num_intervals interval_magnitude : Nat)
    (raw : List α) (dateOf : α → Option Date) : List (String × List α) :=
  (List.range num_intervals).map (fun i =>
    let current_start := addMonths start i
    let current_end := subOneDay (addMonths current_start interval_magnitude)
    (dateKey current_start,
      raw.filter (fun r =>
        match dateOf r with
        | some dd => dateLe current_start dd && dateLe dd current_end
        | none => false)))

/-- Embedding of `apply_function`.  The Python function loops over the
keys of the dictionary replacing each value by `function(value)` in
place, and falls off the end of its body, so its return value is `None`.
The embedding returns the pair of the Python return value (first
component, always `none`) and the state of the argument dictionary after
the call (second component). -/
def apply_function {β : Type} (raw : List (String × β)) (function : β → β) :
    Option (List (String × β)) × List (String × β) :=
  (none, raw.map (fun p => (p.1, function p.2)))

/-- C3: `training_set_split(start=2023-09-05, num_intervals=6,
interval_magnitude=12)` returns exactly the keys sep_23, oct_23, nov_23,
dec_23, jan_24, feb_24 in that order, and window `i` holds exactly the
rows whose date lies between `start + i` months and `start + i` months
`+ 12` months `- 1` day, both bounds inclusive — so each window spans
twelve months minus one day and consecutive windows overlap by eleven
months. -/
theorem training_set_split_sep23_windows {α : Type} (tbl : List α)
    (dateOf : α → Option Date) :
    training_set_split ⟨2023, 9, 5⟩ 6 12 tbl dateOf =
      [("sep_23", tbl.filter (fun r => match dateOf r with
          | some dd => dateLe ⟨2023, 9, 5⟩ dd && dateLe dd ⟨2024, 9, 4⟩
          | none => false)),
       ("oct_23", tbl.filter (fun r => match dateOf r with
          | some dd => dateLe ⟨2023, 10, 5⟩ dd && dateLe dd ⟨2024, 10, 4⟩
          | none => false)),
       ("nov_23", tbl.filter (fun r => match dateOf r with
          | some dd => dateLe ⟨2023, 11, 5⟩ dd && dateLe dd ⟨2024, 11, 4⟩
          | none => false)),
       ("dec_23", tbl.filter (fun r => match dateOf r with
          | some dd => dateLe ⟨2023, 12, 5⟩ dd && dateLe dd ⟨2024, 12, 4⟩
          | none => false)),
       ("jan_24", tbl.filter (fun r => match dateOf r with
          | some dd => dateLe ⟨2024, 1, 5⟩ dd && dateLe dd ⟨2025, 1, 4⟩
          | none => false)),
       ("feb_24", tbl.filter (fun r => match dateOf r with
          | some dd => dateLe ⟨2024, 2, 5⟩ dd && dateLe dd ⟨2025, 2, 4⟩
          | none => false))] := rfl

/-- C8: a row whose date-column value is missing is excluded from every
window returned by `training_set_split`; it is assigned to no default
window. -/
theorem training_set_split_excludes_missing_dates {α : Type} (start : Date)
    (num_intervals interval_magnitude : Nat) (raw : List α)
    (dateOf : α → Option Date) (r : α) (hr : dateOf r = none) :
    ∀ w ∈ training_set_split start num_intervals interval_magnitude raw dateOf,
      r ∉ w.2 := by
  intro w hw hmem
  rw [training_set_split, List.mem_map] at hw
  obtain ⟨i, _, hwi⟩ := hw
  rw [← hwi] at hmem
  have := List.of_mem_filter hmem
  rw [hr] at this
  exact absurd this (by simp)

/-- Witness for C8 at a concrete input: a single-row table whose only
row has a missing date, split into one window. -/
theorem training_set_split_excludes_missing_dates_witness :
    (id (none : Option Date) = none) ∧
      ∀ w ∈ training_set_split ⟨2023, 1, 1⟩ 1 1 [(none : Option Date)] id,
        (none : Option Date) ∉ w.2 :=
  ⟨rfl, training_set_split_excludes_missing_dates ⟨2023, 1, 1⟩ 1 1
    [(none : Option Date)] id none rfl⟩

/-- C9 counterexample: `apply_function` does not return the mapping; its
Python return value is `None` even for the identity transform over a
partition produced by `training_set_split`, so what it returns is not a
mapping equal to the original partition output. -/
theorem apply_function_identity_cex :
    (apply_function
        (training_set_split ⟨2023, 1, 1⟩ 1 1 ([] : List (Option Date)) id)
        (fun t => t)).1 ≠
      some (training_set_split ⟨2023, 1, 1⟩ 1 1 ([] : List (Option Date)) id) := by
  simp [apply_function]

/-- C9 amended: `apply_function` returns `None` but updates the mapping
in place; after applying it with the identity transform to a partition
produced by `training_set_split`, the mapping holds the same labels bound
to tables equal row-for-row to the original partition output. -/
theorem apply_function_identity_roundtrip {α : Type} (start : Date)
    (num_intervals interval_magnitude : Nat) (tbl : List α)
    (dateOf : α → Option Date) :
    apply_function
        (training_set_split start num_intervals interval_magnitude tbl dateOf)
        (fun t => t) =
      (none, training_set_split start num_intervals interval_magnitude tbl dateOf) := by
  simp [apply_function]

/-- A row of the disposition table, holding the columns the embedded
operations read; a missing value is `none`. -/
structure DispRow where
  lan : Option Nat := none
  created_at : Option Date := none
  type : Option String := none
  contact_category : Option String := none
  response_sentiment : Option String := none
  call_duration : Option ℚ := none
  time_since_last_call : Option ℚ := none
  time_since_last_sms : Option ℚ := none
  time_since_last_disposition_event : Option ℚ := none
  time_since_last_contact : Option ℚ := none
deriving DecidableEq, Inhabited

/-- A row of the due (bounce) table, holding the columns the embedded
operations read; a missing value is `none`. -/
structure DueRow where
  lan : Option Nat := none
  due_date : Option Date := none
  due_level_tenor_type : Option String := none
  time_since_last_due : Option ℚ := none
  current_pl_streak : Option Nat := none
  is_pl_streak_end : Option Nat := none
  mob_due : Option ℚ := none
  pre_due_pos : Option ℚ := none
  due_loan_count : Option ℚ := none
  monthend_pos : Option ℚ := none
  bounce_pos : Option ℚ := none
  unresolved_pos : Option ℚ := none
  current_bounce_pos : Option ℚ := none
  current_unresolved_pos : Option ℚ := none
  emi_amount_expected_retro : Option ℚ := none
  bounce_tp3_pos : Option ℚ := none
  bounce_tp5_pos : Option ℚ := none
  current_monthend_pos : Option ℚ := none
  proportion_of_payment : Option ℚ := none
  credit_utilization : Option ℚ := none
  fl_bounce : Option ℚ := none
  fl_unresolved : Option ℚ := none
  fl_current_due : Option ℚ := none
  fl_bounce_tp3 : Option ℚ := none
  fl_bounce_tp5 : Option ℚ := none
deriving DecidableEq, Inhabited

/-- Mean of a numeric column over a group: pandas `mean` skips missing
values and yields missing when every value of the group is missing. -/
def meanOpt (xs : List (Option ℚ)) : Option ℚ :=
  let v := xs.filterMap id
  if v.length = 0 then none else some (v.sum / v.length)

/-- The proportion lambda `x.sum() / x.count() if x.count() > 0 else 0.0`
used by `aggregate_bounce_lan`: `sum` skips missing values, `count`
counts the non-missing ones. -/
def propFl (xs : List (Option ℚ)) : ℚ :=
  let v := xs.filterMap id
  if 0 < v.length then v.sum / v.length else 0

/-- Distinct keys of `groupby('lan')`, in ascending order: pandas drops
rows whose group key is missing and sorts the group keys. -/
def lanKeys {α : Type} (lanOf : α → Option Nat) (raw : List α) : List Nat :=
  ((raw.filterMap lanOf).dedup).insertionSort (· ≤ ·)

/-- One output row of `aggregate_disposition_lan`. -/
structure DispAgg where
  lan : Nat
  call_count : Nat
  sms_count : Nat
  field_count : Nat
  total_contacts : Nat
  answered : Nat
  not_answered : Nat
  pos_response : Nat
  neg_response : Nat
  neu_response : Nat
  unknown_response : Nat
  avg_time_between_calls : Option ℚ
  avg_time_between_sms : Option ℚ
  avg_time_between_field : Option ℚ
  avg_time_between_all : Option ℚ
  avg_call_duration : Option ℚ
  call_frequency : ℚ
  sms_frequency : ℚ
  field_frequency : ℚ
  is_message_only : Nat
deriving DecidableEq

/-- The aggregation `aggregate_disposition_lan` performs on the group of
rows `g` of one customer `k`: the named aggregations of the `.agg` call,
the three `np.where`-guarded frequency columns, and the derived
`is_message_only` flag. -/
def dispAggRow (k : Nat) (g : List DispRow) : DispAgg :=
  let call_count := g.countP (fun r => decide (r.type = some "CALL"))
  let sms_count := g.countP (fun r => decide (r.type = some "SMS"))
  let field_count := g.countP (fun r => decide (r.type = some "DISPOSITION"))
  let total_contacts := g.countP (fun r => r.type.isSome)
  { lan := k
    call_count := call_count
    sms_count := sms_count
    field_count := field_count
    total_contacts := total_contacts
    answered := g.countP (fun r => decide (r.contact_category = some "answered/contactable"))
    not_answered := g.countP (fun r => decide (r.contact_category = some "not answered/uncontactable"))
    pos_response := g.countP (fun r => decide (r.response_sentiment = some "positive response"))
    neg_response := g.countP (fun r => decide (r.response_sentiment = some "negative response"))
    neu_response := g.countP (fun r => decide (r.response_sentiment = some "neutral response"))
    unknown_response := g.countP (fun r => decide (r.response_sentiment = some "unclassified_response_sentiment"))
    avg_time_between_calls := meanOpt (g.map (fun r => r.time_since_last_call))
    avg_time_between_sms := meanOpt (g.map (fun r => r.time_since_last_sms))
    avg_time_between_field := meanOpt (g.map (fun r => r.time_since_last_disposition_event))
    avg_time_between_all := meanOpt (g.map (fun r => r.time_since_last_contact))
    avg_call_duration := meanOpt (g.map (fun r => r.call_duration))
    call_frequency := if total_contacts ≠ 0 then (call_count : ℚ) / total_contacts else 0
    sms_frequency := if total_contacts ≠ 0 then (sms_count : ℚ) / total_contacts else 0
    field_frequency := if total_contacts ≠ 0 then (field_count : ℚ) / total_contacts else 0
    is_message_only := if call_count = 0 ∧ field_count = 0 then 1 else 0 }

/-- Embedding of `aggregate_disposition_lan`: group by `lan` (dropping
rows with a missing `lan`, keys ascending) and aggregate each group. -/
def aggregate_disposition_lan (raw : List DispRow) : List DispAgg :=
  (lanKeys DispRow.lan raw).map
    (fun k => dispAggRow k (raw.filter (fun r => decide (r.lan = some k))))

/-- One row of the per-customer table `aggregate_bounce_lan` computes
into its local `categorized`. -/
structure BounceAgg where
  lan : Nat
  avg_duration_between_dues : Option ℚ
  num_pl_streaks : Nat
  avg_pl_streak_length : Option ℚ
  total_num_dues : Nat
  avg_mob_due : Option ℚ
  avg_pre_due_pos : Option ℚ
  avg_due_loan_count : Option ℚ
  avg_monthend_pos : Option ℚ
  avg_bounce_pos : Option ℚ
  avg_unresolved_pos : Option ℚ
  avg_current_bounce_pos : Option ℚ
  avg_current_unresolved_pos : Option ℚ
  avg_emi_amount_expected_retro : Option ℚ
  avg_bounce_tp3_pos : Option ℚ
  avg_bounce_tp5_pos : Option ℚ
  avg_current_monthend_pos : Option ℚ
  avg_proportion_of_payment : Option ℚ
  avg_credit_utilization : Option ℚ
  prop_fl_bounce : ℚ
  prop_fl_unresolved : ℚ
  prop_fl_current_due : ℚ
  prop_fl_bounce_tp3 : ℚ
  prop_fl_bounce_tp5 : ℚ
deriving DecidableEq

/-- The aggregation `aggregate_bounce_lan` performs on the group of rows
`g` of one customer `k`.  The column `num_pl_streaks` uses the pandas
`'count'` aggregation (number of non-missing entries), and
`avg_pl_streak_length` averages `current_pl_streak` over the rows of the
group whose `is_pl_streak_end` equals 1, as the row-aligned
`x[raw.loc[x.index, 'is_pl_streak_end'] == 1].mean()` does. -/
def bounceAggRow (k : Nat) (g : List DueRow) : BounceAgg :=
  { lan := k
    avg_duration_between_dues := meanOpt (g.map (fun r => r.time_since_last_due))
    num_pl_streaks := g.countP (fun r => r.is_pl_streak_end.isSome)
    avg_pl_streak_length :=
      meanOpt ((g.filter (fun r => decide (r.is_pl_streak_end = some 1))).map
        (fun r => r.current_pl_streak.map (fun n => (n : ℚ))))
    total_num_dues := g.countP (fun r => r.due_date.isSome)
    avg_mob_due := meanOpt (g.map (fun r => r.mob_due))
    avg_pre_due_pos := meanOpt (g.map (fun r => r.pre_due_pos))
    avg_due_loan_count := meanOpt (g.map (fun r => r.due_loan_count))
    avg_monthend_pos := meanOpt (g.map (fun r => r.monthend_pos))
    avg_bounce_pos := meanOpt (g.map (fun r => r.bounce_pos))
    avg_unresolved_pos := meanOpt (g.map (fun r => r.unresolved_pos))
    avg_current_bounce_pos := meanOpt (g.map (fun r => r.current_bounce_pos))
    avg_current_unresolved_pos := meanOpt (g.map (fun r => r.current_unresolved_pos))
    avg_emi_amount_expected_retro := meanOpt (g.map (fun r => r.emi_amount_expected_retro))
    avg_bounce_tp3_pos := meanOpt (g.map (fun r => r.bounce_tp3_pos))
    avg_bounce_tp5_pos := meanOpt (g.map (fun r => r.bounce_tp5_pos))
    avg_current_monthend_pos := meanOpt (g.map (fun r => r.current_monthend_pos))
    avg_proportion_of_payment := meanOpt (g.map (fun r => r.proportion_of_payment))
    avg_credit_utilization := meanOpt (g.map (fun r => r.credit_utilization))
    prop_fl_bounce := propFl (g.map (fun r => r.fl_bounce))
    prop_fl_unresolved := propFl (g.map (fun r => r.fl_unresolved))
    prop_fl_current_due := propFl (g.map (fun r => r.fl_current_due))
    prop_fl_bounce_tp3 := propFl (g.map (fun r => r.fl_bounce_tp3))
    prop_fl_bounce_tp5 := propFl (g.map (fun r => r.fl_bounce_tp5)) }

/-- The per-customer table `aggregate_bounce_lan` computes into its local
variable `categorized`: group by `lan` (dropping rows with a missing
`lan`, keys ascending) and aggregate each group. -/
def aggregate_bounce_lan_categorized (raw : List DueRow) : List BounceAgg :=
  (lanKeys DueRow.lan raw).map
    (fun k => bounceAggRow k (raw.filter (fun r => decide (r.lan = some k))))

/-- Embedding of `aggregate_bounce_lan`: the Python function binds the
aggregated table to its local `categorized` and then falls off the end of
its body with no `return` statement, so its value is `None` for every
input. -/
def aggregate_bounce_lan (raw : List DueRow) : Option (List BounceAgg) :=
  let _categorized := aggregate_bounce_lan_categorized raw
  none

/-- C10: `aggregate_bounce_lan` returns no value.  Its body computes the
per-customer aggregate into the local `categorized` and ends without a
`return` statement, so the caller receives `None` for every input. -/
theorem aggregate_bounce_lan_always_none (raw : List DueRow) :
    aggregate_bounce_lan raw = none := rfl

/-- A concrete due record of customer 7 used to exhibit behaviour at a
specific input. -/
def exDueRow : DueRow :=
  { lan := some 7
    due_date := some ⟨2023, 5, 5⟩
    due_level_tenor_type := some "PL only"
    current_pl_streak := some 1
    is_pl_streak_end := some 1
    fl_bounce := some 1
    fl_unresolved := some 0
    fl_bounce_tp3 := some 0
    fl_bounce_tp5 := some 1 }

/-- A concrete disposition record of customer 7 used to exhibit behaviour
at a specific input. -/
def exDispRow : DispRow :=
  { lan := some 7
    created_at := some ⟨2023, 5, 1⟩
    type := some "CALL"
    contact_category := some "answered/contactable"
    response_sentiment := some "positive response"
    call_duration := some 30 }

/-- C1, shown failing: on the one-row due table of customer 7 the table
`aggregate_bounce_lan` computes internally has exactly one row, keyed by
customer 7, as the claim requires — but the function itself returns
`None` rather than that table, because its body has no `return`
statement. -/
theorem aggregate_bounce_lan_missing_return :
    aggregate_bounce_lan [exDueRow] = none ∧
      (aggregate_bounce_lan_categorized [exDueRow]).map BounceAgg.lan = [7] ∧
      (aggregate_bounce_lan_categorized [exDueRow]).length = 1 :=
  ⟨rfl, rfl, rfl⟩

/-- A 0/1 indicator entry: missing, zero, or one. -/
def isIndicator (x : Option ℚ) : Prop := x = none ∨ x = some 0 ∨ x = some 1

instance : DecidablePred isIndicator := fun x => by
  unfold isIndicator; infer_instance

/-- Length of a `filterMap` counts the non-missing entries. -/
theorem length_filterMap_isSome {α β : Type} (f : α → Option β) (l : List α) :
    (l.filterMap f).length = l.countP (fun x => (f x).isSome) := by
  induction l with
  | nil => rfl
  | cons a t ih =>
    rw [List.filterMap_cons]
    cases h : f a <;> simp [List.countP_cons, h, ih]

/-- Unfolding equation for `propFl`. -/
theorem propFl_eq (xs : List (Option ℚ)) :
    propFl xs = if 0 < (xs.filterMap id).length
      then (xs.filterMap id).sum / ((xs.filterMap id).length : ℚ) else 0 := rfl

/-- The guarded proportion of a 0/1 indicator column lies in the unit
interval. -/
theorem propFl_col_bounds {g : List DueRow} (f : DueRow → Option ℚ)
    (h : ∀ r ∈ g, isIndicator (f r)) :
    0 ≤ propFl (g.map f) ∧ propFl (g.map f) ≤ 1 := by
  have h01 : ∀ x ∈ (g.map f).filterMap id, x = 0 ∨ x = 1 := by
    intro x hx
    rw [List.filterMap_map] at hx
    obtain ⟨r, hr, hrx⟩ := List.mem_filterMap.1 hx
    replace hrx : f r = some x := hrx
    rcases h r hr with hn | h0 | h0
    · rw [hn] at hrx; exact absurd hrx (by simp)
    · rw [h0] at hrx
      exact Or.inl (by injection hrx with hq; exact hq.symm)
    · rw [h0] at hrx
      exact Or.inr (by injection hrx with hq; exact hq.symm)
  rw [propFl_eq]
  by_cases hl : 0 < ((g.map f).filterMap id).length
  · have hnn : 0 ≤ ((g.map f).filterMap id).sum :=
      List.sum_nonneg (fun x hx => by rcases h01 x hx with h0 | h0 <;> simp [h0])
    have hle : ((g.map f).filterMap id).sum ≤ (((g.map f).filterMap id).length : ℚ) := by
      calc ((g.map f).filterMap id).sum
          ≤ ((g.map f).filterMap id).length • (1 : ℚ) :=
            List.sum_le_card_nsmul _ 1
              (fun x hx => by rcases h01 x hx with h0 | h0 <;> simp [h0])
        _ = (((g.map f).filterMap id).length : ℚ) := by simp
    rw [if_pos hl]
    constructor
    · exact div_nonneg hnn (by positivity)
    · rw [div_le_one (by exact_mod_cast hl)]
      exact hle
  · rw [if_neg hl]
    norm_num

/-- The guarded proportion is exactly zero when the column has zero
non-missing entries in the group. -/
theorem propFl_col_zero {g : List DueRow} (f : DueRow → Option ℚ)
    (h : g.countP (fun r => (f r).isSome) = 0) :
    propFl (g.map f) = 0 := by
  rw [propFl_eq]
  have hv : (g.map f).filterMap id = g.filterMap f := by
    rw [List.filterMap_map]; rfl
  rw [hv, length_filterMap_isSome, h]
  simp

/-- Bounds for the `np.where`-guarded frequency columns. -/
theorem freq_bounds (cc tc : Nat) (h : cc ≤ tc) :
    0 ≤ (if tc ≠ 0 then (cc : ℚ) / tc else 0) ∧
      (if tc ≠ 0 then (cc : ℚ) / tc else 0) ≤ 1 := by
  by_cases htc : tc = 0
  · simp [htc]
  · simp only [htc, ne_eq, not_false_eq_true, if_pos]
    constructor
    · positivity
    · rw [div_le_one (by exact_mod_cast Nat.pos_of_ne_zero htc)]
      exact_mod_cast h

/-- C6: every proportion column produced by the aggregators — the three
frequency columns of `aggregate_disposition_lan` and, over 0/1 indicator
inputs, the five `prop_fl` columns of the table `aggregate_bounce_lan`
computes — lies in the unit interval, and equals exactly zero for a
customer whose denominator (`total_contacts`, or the count of non-missing
indicator entries) is zero. -/
theorem aggregator_proportions_unit_interval
    (disp : List DispRow) (due : List DueRow)
    (h01 : ∀ r ∈ due, isIndicator r.fl_bounce ∧ isIndicator r.fl_unresolved ∧
      isIndicator r.fl_current_due ∧ isIndicator r.fl_bounce_tp3 ∧
      isIndicator r.fl_bounce_tp5) :
    (∀ a ∈ aggregate_disposition_lan disp,
      (0 ≤ a.call_frequency ∧ a.call_frequency ≤ 1) ∧
      (0 ≤ a.sms_frequency ∧ a.sms_frequency ≤ 1) ∧
      (0 ≤ a.field_frequency ∧ a.field_frequency ≤ 1) ∧
      (a.total_contacts = 0 →
        a.call_frequency = 0 ∧ a.sms_frequency = 0 ∧ a.field_frequency = 0)) ∧
    (∀ b ∈ aggregate_bounce_lan_categorized due,
      (0 ≤ b.prop_fl_bounce ∧ b.prop_fl_bounce ≤ 1) ∧
      (0 ≤ b.prop_fl_unresolved ∧ b.prop_fl_unresolved ≤ 1) ∧
      (0 ≤ b.prop_fl_current_due ∧ b.prop_fl_current_due ≤ 1) ∧
      (0 ≤ b.prop_fl_bounce_tp3 ∧ b.prop_fl_bounce_tp3 ≤ 1) ∧
      (0 ≤ b.prop_fl_bounce_tp5 ∧ b.prop_fl_bounce_tp5 ≤ 1) ∧
      ((due.filter (fun r => decide (r.lan = some b.lan))).countP
          (fun r => r.fl_bounce.isSome) = 0 → b.prop_fl_bounce = 0) ∧
      ((due.filter (fun r => decide (r.lan = some b.lan))).countP
          (fun r => r.fl_unresolved.isSome) = 0 → b.prop_fl_unresolved = 0) ∧
      ((due.filter (fun r => decide (r.lan = some b.lan))).countP
          (fun r => r.fl_current_due.isSome) = 0 → b.prop_fl_current_due = 0) ∧
      ((due.filter (fun r => decide (r.lan = some b.lan))).countP
          (fun r => r.fl_bounce_tp3.isSome) = 0 → b.prop_fl_bounce_tp3 = 0) ∧
      ((due.filter (fun r => decide (r.lan = some b.lan))).countP
          (fun r => r.fl_bounce_tp5.isSome) = 0 → b.prop_fl_bounce_tp5 = 0)) := by
  constructor
  · intro a ha
    rw [aggregate_disposition_lan, List.mem_map] at ha
    obtain ⟨k, _, rfl⟩ := ha
    have hmono : ∀ p : DispRow → Bool,
        (∀ r ∈ disp.filter (fun r => decide (r.lan = some k)),
          p r → r.type.isSome) →
        (disp.filter (fun r => decide (r.lan = some k))).countP p ≤
          (disp.filter (fun r => decide (r.lan = some k))).countP
            (fun r => r.type.isSome) :=
      fun p hp => List.countP_mono_left hp
    refine ⟨?_, ?_, ?_, ?_⟩
    · exact freq_bounds _ _ (hmono _ (fun r _ hr => by
        simp only [decide_eq_true_eq] at hr
        simp [hr]))
    · exact freq_bounds _ _ (hmono _ (fun r _ hr => by
        simp only [decide_eq_true_eq] at hr
        simp [hr]))
    · exact freq_bounds _ _ (hmono _ (fun r _ hr => by
        simp only [decide_eq_true_eq] at hr
        simp [hr]))
    · intro h0
      simp only [dispAggRow] at h0 ⊢
      simp [h0]
  · intro b hb
    rw [aggregate_bounce_lan_categorized, List.mem_map] at hb
    obtain ⟨k, _, rfl⟩ := hb
    have hg : ∀ r ∈ due.filter (fun r => decide (r.lan = some k)), r ∈ due :=
      fun r hr => (List.mem_filter.1 hr).1
    refine ⟨propFl_col_bounds _ (fun r hr => (h01 r (hg r hr)).1),
      propFl_col_bounds _ (fun r hr => (h01 r (hg r hr)).2.1),
      propFl_col_bounds _ (fun r hr => (h01 r (hg r hr)).2.2.1),
      propFl_col_bounds _ (fun r hr => (h01 r (hg r hr)).2.2.2.1),
      propFl_col_bounds _ (fun r hr => (h01 r (hg r hr)).2.2.2.2),
      fun h0 => propFl_col_zero _ h0, fun h0 => propFl_col_zero _ h0,
      fun h0 => propFl_col_zero _ h0, fun h0 => propFl_col_zero _ h0,
      fun h0 => propFl_col_zero _ h0⟩

/-- Witness for C6 at concrete one-row tables of customer 7: the
indicator hypothesis holds there, and the conclusion follows by applying
the theorem. -/
theorem aggregator_proportions_unit_interval_witness :
    (∀ r ∈ [exDueRow], isIndicator r.fl_bounce ∧ isIndicator r.fl_unresolved ∧
      isIndicator r.fl_current_due ∧ isIndicator r.fl_bounce_tp3 ∧
      isIndicator r.fl_bounce_tp5) ∧
    ((∀ a ∈ aggregate_disposition_lan [exDispRow],
      (0 ≤ a.call_frequency ∧ a.call_frequency ≤ 1) ∧
      (0 ≤ a.sms_frequency ∧ a.sms_frequency ≤ 1) ∧
      (0 ≤ a.field_frequency ∧ a.field_frequency ≤ 1) ∧
      (a.total_contacts = 0 →
        a.call_frequency = 0 ∧ a.sms_frequency = 0 ∧ a.field_frequency = 0)) ∧
    (∀ b ∈ aggregate_bounce_lan_categorized [exDueRow],
      (0 ≤ b.prop_fl_bounce ∧ b.prop_fl_bounce ≤ 1) ∧
      (0 ≤ b.prop_fl_unresolved ∧ b.prop_fl_unresolved ≤ 1) ∧
      (0 ≤ b.prop_fl_current_due ∧ b.prop_fl_current_due ≤ 1) ∧
      (0 ≤ b.prop_fl_bounce_tp3 ∧ b.prop_fl_bounce_tp3 ≤ 1) ∧
      (0 ≤ b.prop_fl_bounce_tp5 ∧ b.prop_fl_bounce_tp5 ≤ 1) ∧
      (([exDueRow].filter (fun r => decide (r.lan = some b.lan))).countP
          (fun r => r.fl_bounce.isSome) = 0 → b.prop_fl_bounce = 0) ∧
      (([exDueRow].filter (fun r => decide (r.lan = some b.lan))).countP
          (fun r => r.fl_unresolved.isSome) = 0 → b.prop_fl_unresolved = 0) ∧
      (([exDueRow].filter (fun r => decide (r.lan = some b.lan))).countP
          (fun r => r.fl_current_due.isSome) = 0 → b.prop_fl_current_due = 0) ∧
      (([exDueRow].filter (fun r => decide (r.lan = some b.lan))).countP
          (fun r => r.fl_bounce_tp3.isSome) = 0 → b.prop_fl_bounce_tp3 = 0) ∧
      (([exDueRow].filter (fun r => decide (r.lan = some b.lan))).countP
          (fun r => r.fl_bounce_tp5.isSome) = 0 → b.prop_fl_bounce_tp5 = 0))) :=
  ⟨by decide, aggregator_proportions_unit_interval [exDispRow] [exDueRow] (by decide)⟩

/-- Order on optional dates used by `sort_values`: missing dates (`NaT`)
are placed last, as pandas does with the default `na_position`. -/
def optDateLeB (a b : Option Date) : Bool :=
  match b with
  | none => true
  | some yb =>
    match a with
    | none => false
    | some xa => dateLe xa yb

/-- Totality of the calendar order. -/
theorem dateLe_total (x y : Date) : dateLe x y = true ∨ dateLe y x = true := by
  simp only [dateLe, decide_eq_true_eq]
  omega

/-- Transitivity of the calendar order. -/
theorem dateLe_trans {x y z : Date} (h1 : dateLe x y = true)
    (h2 : dateLe y z = true) : dateLe x z = true := by
  simp only [dateLe, decide_eq_true_eq] at h1 h2 ⊢
  omega

/-- Reflexivity of the calendar order. -/
theorem dateLe_refl (x : Date) : dateLe x x = true := by
  simp [dateLe]

/-- Totality of the missing-last order on optional dates. -/
theorem optDateLeB_total (a b : Option Date) :
    optDateLeB a b = true ∨ optDateLeB b a = true := by
  match a, b with
  | none, none => exact Or.inl rfl
  | some _, none => exact Or.inl rfl
  | none, some _ => exact Or.inr rfl
  | some x, some y => simpa [optDateLeB] using dateLe_total x y

/-- Transitivity of the missing-last order on optional dates. -/
theorem optDateLeB_trans {a b c : Option Date} (h1 : optDateLeB a b = true)
    (h2 : optDateLeB b c = true) : optDateLeB a c = true := by
  match a, b, c with
  | _, _, none => rfl
  | none, none, some _ => exact absurd h2 (by simp [optDateLeB])
  | none, some _, some _ => exact absurd h1 (by simp [optDateLeB])
  | some _, none, some _ => exact absurd h2 (by simp [optDateLeB])
  | some x, some y, some z =>
    simp only [optDateLeB] at h1 h2 ⊢
    exact dateLe_trans h1 h2

/-- Row order used to sort the disposition table by `created_at`. -/
def dispLe (a b : DispRow) : Prop :=
  optDateLeB a.created_at b.created_at = true

/-- Row order used to sort the due lookup table by `due_date`. -/
structure DueLookup where
  lan : Option Nat
  due_date : Option Date
  fl_bounce_tp3 : Option ℚ
  fl_bounce_tp5 : Option ℚ
deriving DecidableEq, Inhabited

/-- Projection `df_due[['lan', 'due_date', 'fl_bounce_tp3',
'fl_bounce_tp5']].copy()`. -/
def dueLookupOf (r : DueRow) : DueLookup :=
  ⟨r.lan, r.due_date, r.fl_bounce_tp3, r.fl_bounce_tp5⟩

/-- Order used to sort the due lookup rows by `due_date`. -/
def lookupLe (a b : DueLookup) : Prop :=
  optDateLeB a.due_date b.due_date = true

instance : DecidableRel dispLe := fun a b => by unfold dispLe; infer_instance

instance : DecidableRel lookupLe := fun a b => by unfold lookupLe; infer_instance

instance : IsTotal DispRow dispLe :=
  ⟨fun a b => optDateLeB_total a.created_at b.created_at⟩

instance : IsTrans DispRow dispLe :=
  ⟨fun _ _ _ h1 h2 => optDateLeB_trans h1 h2⟩

instance : IsTotal DueLookup lookupLe :=
  ⟨fun a b => optDateLeB_total a.due_date b.due_date⟩

instance : IsTrans DueLookup lookupLe :=
  ⟨fun _ _ _ h1 h2 => optDateLeB_trans h1 h2⟩

/-- The forward `merge_asof` matching condition for a left (disposition)
row `d` against a right (due lookup) row `u`: same customer key, present
on the left, and the right timestamp at or after the left one.  A row
whose `by`-key is missing matches nothing.  The timestamp wildcard arm
only keeps the function total: `merge_asof` raises on null merge keys
before any matching, which `merge_dispositions_to_dues` models by its
guard, so the condition is only ever evaluated on present timestamps. -/
def fwdOk (d : DispRow) (u : DueLookup) : Bool :=
  decide (u.lan = d.lan) && d.lan.isSome &&
    (match d.created_at, u.due_date with
     | some t, some s => dateLe t s
     | _, _ => false)

/-- A row of the merged table: the disposition row with the selected due
columns appended (missing when unmatched). -/
structure MergedRow where
  disp : DispRow
  due_date : Option Date
  fl_bounce_tp3 : Option ℚ
  fl_bounce_tp5 : Option ℚ
deriving DecidableEq

/-- Embedding of `merge_dispositions_to_dues`: project the due table to
the lookup columns and sort both sides by their timestamp.  Before any
matching, `pd.merge_asof` validates its merge keys and raises
`ValueError("Merge keys contain null values")` when `created_at` or
`due_date` holds any missing value; the embedding returns `none` on that
error path.  Otherwise each disposition row receives the first lookup
row at or after its timestamp for the same customer
(`direction='forward'`), or missing values when no such row exists. -/
def merge_dispositions_to_dues (df_due : List DueRow)
    (df_disposition : List DispRow) : Option (List MergedRow) :=
  let df_due_lookup := df_due.map dueLookupOf
  let df_disposition_sorted := df_disposition.insertionSort dispLe
  let df_due_lookup_sorted := df_due_lookup.insertionSort lookupLe
  if df_disposition_sorted.all (fun x => x.created_at.isSome) &&
      df_due_lookup_sorted.all (fun u => u.due_date.isSome) then
    some (df_disposition_sorted.map (fun d =>
      match df_due_lookup_sorted.find? (fwdOk d) with
      | some u => ⟨d, u.due_date, u.fl_bounce_tp3, u.fl_bounce_tp5⟩
      | none => ⟨d, none, none, none⟩))
  else none

/-- The error path is live: a merge over a disposition table holding a
missing `created_at` takes the `ValueError` branch and yields no merged
table, as `merge_asof` raises there. -/
theorem merge_dispositions_to_dues_missing_key_error :
    merge_dispositions_to_dues [] [({ lan := some 7 } : DispRow)] = none := rfl

/-- In a list sorted for `r`, the first element `find?` returns is below
every element satisfying the predicate. -/
theorem find_first_of_pairwise {α : Type} {r : α → α → Prop} {p : α → Bool} :
    ∀ {l : List α}, l.Pairwise r → ∀ {a : α}, l.find? p = some a →
      ∀ b ∈ l, p b = true → a = b ∨ r a b := by
  intro l
  induction l with
  | nil => intro _ a h; simp at h
  | cons x xs ih =>
    intro hp a hf b hb hpb
    rw [List.find?_cons] at hf
    cases hpx : p x with
    | true =>
      rw [hpx] at hf
      have hax : a = x := by injection hf with h; exact h.symm
      rcases List.mem_cons.1 hb with hbx | hbxs
      · exact Or.inl (hax.trans hbx.symm)
      · exact Or.inr (hax ▸ (List.pairwise_cons.1 hp).1 b hbxs)
    | false =>
      rw [hpx] at hf
      rcases List.mem_cons.1 hb with hbx | hbxs
      · rw [hbx] at hpb; exact absurd hpb (by simp [hpx])
      · exact ih (List.pairwise_cons.1 hp).2 hf b hbxs hpb

/-- C2: in the forward time-aware join `merge_dispositions_to_dues`, on
tables whose timestamps are all present (the inputs on which `merge_asof`
does not raise), every disposition row of a customer `c` at time `t`
receives the due columns of the earliest same-customer due record dated
at or after `t` when one exists (so with dues one day and ten days later,
the one-day record is matched), and missing values in every appended
column when no such record exists. -/
theorem merge_dispositions_to_dues_forward
    (df_due : List DueRow) (df_disposition : List DispRow)
    (hleft : ∀ x ∈ df_disposition, x.created_at ≠ none)
    (hright : ∀ u ∈ df_due, u.due_date ≠ none)
    (d : DispRow) (hd : d ∈ df_disposition) (c : Nat) (hc : d.lan = some c)
    (t : Date) (ht : d.created_at = some t) :
    ∃ merged, merge_dispositions_to_dues df_due df_disposition = some merged ∧
      ∃ m ∈ merged, m.disp = d ∧
      ((∃ u ∈ df_due, u.lan = some c ∧ ∃ s, u.due_date = some s ∧
          dateLe t s = true) →
        ∃ w ∈ df_due, w.lan = some c ∧ ∃ sw, w.due_date = some sw ∧
          dateLe t sw = true ∧ m.due_date = some sw ∧
          m.fl_bounce_tp3 = w.fl_bounce_tp3 ∧ m.fl_bounce_tp5 = w.fl_bounce_tp5 ∧
          ∀ u ∈ df_due, u.lan = some c → ∀ s, u.due_date = some s →
            dateLe t s = true → dateLe sw s = true) ∧
      ((¬ ∃ u ∈ df_due, u.lan = some c ∧ ∃ s, u.due_date = some s ∧
          dateLe t s = true) →
        m.due_date = none ∧ m.fl_bounce_tp3 = none ∧ m.fl_bounce_tp5 = none) := by
  have hds : d ∈ df_disposition.insertionSort dispLe :=
    (List.perm_insertionSort dispLe df_disposition).mem_iff.2 hd
  have hlperm := List.perm_insertionSort lookupLe (df_due.map dueLookupOf)
  have hguard : ((df_disposition.insertionSort dispLe).all
      (fun x => x.created_at.isSome) &&
      ((df_due.map dueLookupOf).insertionSort lookupLe).all
        (fun u => u.due_date.isSome)) = true := by
    rw [Bool.and_eq_true]
    constructor
    · rw [List.all_eq_true]
      intro x hx
      have hx2 : x ∈ df_disposition :=
        (List.perm_insertionSort dispLe df_disposition).mem_iff.1 hx
      cases hx3 : x.created_at with
      | none => exact absurd hx3 (hleft x hx2)
      | some _ => rfl
    · rw [List.all_eq_true]
      intro u hu
      obtain ⟨w, hw, rfl⟩ := List.mem_map.1 (hlperm.mem_iff.1 hu)
      cases hw3 : (dueLookupOf w).due_date with
      | none => exact absurd hw3 (hright w hw)
      | some _ => rfl
  have hmerge : merge_dispositions_to_dues df_due df_disposition =
      some ((df_disposition.insertionSort dispLe).map
        (fun x => match ((df_due.map dueLookupOf).insertionSort lookupLe).find?
            (fwdOk x) with
          | some u => MergedRow.mk x u.due_date u.fl_bounce_tp3 u.fl_bounce_tp5
          | none => MergedRow.mk x none none none)) := by
    have hif : merge_dispositions_to_dues df_due df_disposition =
        (if (df_disposition.insertionSort dispLe).all
            (fun x => x.created_at.isSome) &&
            ((df_due.map dueLookupOf).insertionSort lookupLe).all
              (fun u => u.due_date.isSome) then
          some ((df_disposition.insertionSort dispLe).map
            (fun x =>
              match ((df_due.map dueLookupOf).insertionSort lookupLe).find?
                  (fwdOk x) with
              | some u =>
                MergedRow.mk x u.due_date u.fl_bounce_tp3 u.fl_bounce_tp5
              | none => MergedRow.mk x none none none))
        else none) := rfl
    rw [hif, hguard]
    rfl
  refine ⟨_, hmerge, _, List.mem_map_of_mem
    (fun x => match ((df_due.map dueLookupOf).insertionSort lookupLe).find?
        (fwdOk x) with
      | some u => MergedRow.mk x u.due_date u.fl_bounce_tp3 u.fl_bounce_tp5
      | none => MergedRow.mk x none none none) hds, ?_⟩
  have hcond : ∀ u ∈ df_due, u.lan = some c → ∀ s, u.due_date = some s →
      dateLe t s = true → fwdOk d (dueLookupOf u) = true := by
    intro u _ hu s hs hts
    simp [fwdOk, dueLookupOf, hc, ht, hu, hs, hts]
  cases hf : ((df_due.map dueLookupOf).insertionSort lookupLe).find? (fwdOk d) with
  | none =>
    simp only [hf]
    refine ⟨trivial, ?_, fun _ => by trivial⟩
    intro hex
    obtain ⟨u, hu, huc, s, hs, hts⟩ := hex
    have hv : dueLookupOf u ∈ (df_due.map dueLookupOf).insertionSort lookupLe :=
      hlperm.mem_iff.2 (List.mem_map_of_mem dueLookupOf hu)
    exact absurd (hcond u hu huc s hs hts) (List.find?_eq_none.1 hf _ hv)
  | some w0 =>
    simp only [hf]
    have hw0mem : w0 ∈ (df_due.map dueLookupOf).insertionSort lookupLe :=
      List.mem_of_find?_eq_some hf
    have hw0p : fwdOk d w0 = true := List.find?_some hf
    obtain ⟨w, hw, hww0⟩ := List.mem_map.1 (hlperm.mem_iff.1 hw0mem)
    have hw0lan : w0.lan = some c := by
      simp only [fwdOk, hc, ht, Bool.and_eq_true, decide_eq_true_eq] at hw0p
      exact hw0p.1.1
    cases hsd : w0.due_date with
    | none =>
      exfalso
      simp [fwdOk, hc, ht, hsd] at hw0p
    | some sw =>
      have htsw : dateLe t sw = true := by
        simp only [fwdOk, hc, ht, hsd, Bool.and_eq_true] at hw0p
        exact hw0p.2
      refine ⟨trivial, ?_, ?_⟩
      · intro _
        refine ⟨w, hw, ?_, sw, ?_, htsw, ?_, ?_, ?_, ?_⟩
        · rw [← hww0] at hw0lan; exact hw0lan
        · rw [← hww0] at hsd; exact hsd
        · simp [hsd]
        · rw [← hww0]; rfl
        · rw [← hww0]; rfl
        · intro u hu huc s hs hts
          have hv : dueLookupOf u ∈ (df_due.map dueLookupOf).insertionSort lookupLe :=
            hlperm.mem_iff.2 (List.mem_map_of_mem dueLookupOf hu)
          have hsorted : ((df_due.map dueLookupOf).insertionSort
              lookupLe).Pairwise lookupLe :=
            List.sorted_insertionSort lookupLe (df_due.map dueLookupOf)
          rcases find_first_of_pairwise hsorted hf (dueLookupOf u) hv
              (hcond u hu huc s hs hts) with heq | hle
          · have : some sw = some s := by
              rw [← hsd, heq]
              simp [dueLookupOf, hs]
            injection this with hss
            rw [hss]
            exact dateLe_refl s
          · unfold lookupLe at hle
            rw [hsd] at hle
            have hus : (dueLookupOf u).due_date = some s := by
              simp [dueLookupOf, hs]
            rw [hus] at hle
            simpa [optDateLeB] using hle
      · intro hnex
        exfalso
        refine hnex ⟨w, hw, ?_, sw, ?_, htsw⟩
        · rw [← hww0] at hw0lan; exact hw0lan
        · rw [← hww0] at hsd; exact hsd

/-- A due record of customer 7 one day after the disposition of
`exDispRow`. -/
def exDueA : DueRow :=
  { lan := some 7
    due_date := some ⟨2023, 5, 2⟩
    fl_bounce_tp3 := some 1
    fl_bounce_tp5 := some 0 }

/-- A due record of customer 7 ten days after the disposition of
`exDispRow`. -/
def exDueB : DueRow :=
  { lan := some 7
    due_date := some ⟨2023, 5, 11⟩
    fl_bounce_tp3 := some 0
    fl_bounce_tp5 := some 1 }

/-- Witness for C2 at the concrete scenario of the claim: a disposition
of customer 7 at time T with due records at T plus one day and T plus ten
days, all timestamps present so the merge does not take the error
path. -/
theorem merge_dispositions_to_dues_forward_witness :
    (∀ x ∈ [exDispRow], x.created_at ≠ none) ∧
      (∀ u ∈ [exDueA, exDueB], u.due_date ≠ none) ∧
      (exDispRow ∈ [exDispRow]) ∧ exDispRow.lan = some 7 ∧
      exDispRow.created_at = some ⟨2023, 5, 1⟩ ∧
      (∃ merged, merge_dispositions_to_dues [exDueA, exDueB] [exDispRow] =
          some merged ∧
        ∃ m ∈ merged, m.disp = exDispRow ∧
        ((∃ u ∈ [exDueA, exDueB], u.lan = some 7 ∧ ∃ s, u.due_date = some s ∧
            dateLe ⟨2023, 5, 1⟩ s = true) →
          ∃ w ∈ [exDueA, exDueB], w.lan = some 7 ∧ ∃ sw, w.due_date = some sw ∧
            dateLe ⟨2023, 5, 1⟩ sw = true ∧ m.due_date = some sw ∧
            m.fl_bounce_tp3 = w.fl_bounce_tp3 ∧ m.fl_bounce_tp5 = w.fl_bounce_tp5 ∧
            ∀ u ∈ [exDueA, exDueB], u.lan = some 7 → ∀ s, u.due_date = some s →
              dateLe ⟨2023, 5, 1⟩ s = true → dateLe sw s = true) ∧
        ((¬ ∃ u ∈ [exDueA, exDueB], u.lan = some 7 ∧ ∃ s, u.due_date = some s ∧
            dateLe ⟨2023, 5, 1⟩ s = true) →
          m.due_date = none ∧ m.fl_bounce_tp3 = none ∧ m.fl_bounce_tp5 = none)) :=
  ⟨by decide, by decide, List.mem_singleton.mpr rfl, rfl, rfl,
    merge_dispositions_to_dues_forward [exDueA, exDueB] [exDispRow]
      (by decide) (by decide) exDispRow
      (List.mem_singleton.mpr rfl) 7 rfl ⟨2023, 5, 1⟩ rfl⟩

/-- Cumulative number of days before month `m` in a non-leap year. -/
def cumDaysBefore (m : Nat) : Nat :=
  if m = 1 then 0 else if m = 2 then 31 else if m = 3 then 59
  else if m = 4 then 90 else if m = 5 then 120 else if m = 6 then 151
  else if m = 7 then 181 else if m = 8 then 212 else if m = 9 then 243
  else if m = 10 then 273 else if m = 11 then 304 else 334

/-- Cumulative days before month `m` of year `y`, leap day included. -/
def cumAdj (y m : Nat) : Nat :=
  cumDaysBefore m + (if 3 ≤ m ∧ isLeap y = true then 1 else 0)

/-- One-based day of year. -/
def dayOfYear (dt : Date) : Nat := cumAdj dt.y dt.m + dt.d

/-- Total number of days in the Gregorian years 1 through `y`. -/
def daysBeforeYear : Nat → Nat
  | 0 => 0
  | y + 1 => daysBeforeYear y + (if isLeap (y + 1) = true then 366 else 365)

/-- Absolute day number of a calendar date, counting within the proleptic
Gregorian calendar; differences of day numbers are exact whole-day gaps. -/
def toDayNumber (dt : Date) : Nat :=
  daysBeforeYear (dt.y - 1) + dayOfYear dt

/-- A well-formed calendar date. -/
def validDate (dt : Date) : Prop :=
  1 ≤ dt.y ∧ 1 ≤ dt.m ∧ dt.m ≤ 12 ∧ 1 ≤ dt.d ∧ dt.d ≤ daysInMonth dt.y dt.m

instance : DecidablePred validDate := fun dt => by
  unfold validDate; infer_instance

/-- Value of the group-key column at row position `i`. -/
def keyAt {α κ : Type} (key : α → Option κ) (l : List α) (i : Nat) : Option κ :=
  match l[i]? with
  | some r => key r
  | none => none

/-- Value of the timestamp column at row position `i`. -/
def dateAt {α : Type} (dateOf : α → Option Date) (l : List α) (i : Nat) : Option Date :=
  match l[i]? with
  | some r => dateOf r
  | none => none

/-- Position of the previous row of the same group, as `groupby(key)`
sees it: the greatest `j < i` whose key equals row `i`'s key.  Rows whose
key is missing belong to no group and have no previous row. -/
def prevIdxBy {α κ : Type} [DecidableEq κ] (key : α → Option κ) (l : List α)
    (i : Nat) : Option Nat :=
  match keyAt key l i with
  | none => none
  | some _ =>
    ((List.range i).filter (fun j => decide (keyAt key l j = keyAt key l i))).getLast?

/-- Embedding of `df.groupby(key)[col].diff().dt.days`: one entry per
row, holding the whole-day difference between the row's timestamp and the
timestamp of the previous row of the same group; missing for rows with a
missing group key, for the first row of each group, and when either
timestamp involved is missing. -/
def diffDaysBy {α κ : Type} [DecidableEq κ] (key : α → Option κ)
    (dateOf : α → Option Date) (l : List α) : List (Option Int) :=
  (List.range l.length).map (fun i =>
    match prevIdxBy key l i with
    | none => none
    | some j =>
      match dateAt dateOf l i, dateAt dateOf l j with
      | some di, some dj => some ((toDayNumber di : Int) - (toDayNumber dj : Int))
      | _, _ => none)

/-- Adding the length of month `m` to the cumulative days before it gives
the cumulative days before month `m + 1`. -/
theorem cumAdj_step (y m : Nat) (h1 : 1 ≤ m) (h2 : m ≤ 11) :
    cumAdj y m + daysInMonth y m = cumAdj y (m + 1) := by
  interval_cases m <;> by_cases hL : isLeap y = true <;>
    simp [cumAdj, cumDaysBefore, daysInMonth, hL]

/-- The cumulative day count before a month is monotone in the month. -/
theorem cumAdj_le (y m1 : Nat) (h1 : 1 ≤ m1) :
    ∀ m2, m1 ≤ m2 → m2 ≤ 12 → cumAdj y m1 ≤ cumAdj y m2 := by
  intro m2
  induction m2 with
  | zero => intro h12 _; omega
  | succ n ih =>
    intro h12 h2
    rcases Nat.lt_or_ge n m1 with hlt | hge
    · have he : m1 = n + 1 := by omega
      rw [he]
    · have hn1 : 1 ≤ n := by omega
      calc cumAdj y m1 ≤ cumAdj y n := ih hge (by omega)
        _ ≤ cumAdj y n + daysInMonth y n := Nat.le_add_right _ _
        _ = cumAdj y (n + 1) := cumAdj_step y n hn1 (by omega)

/-- Within one year, the day of year respects the (month, day) order. -/
theorem dayOfYear_mono_within (y m1 d1 m2 d2 : Nat)
    (h1 : 1 ≤ m1) (h2 : m1 ≤ 12) (h4 : d1 ≤ daysInMonth y m1)
    (h6 : m2 ≤ 12)
    (hlex : m1 < m2 ∨ (m1 = m2 ∧ d1 ≤ d2)) :
    dayOfYear ⟨y, m1, d1⟩ ≤ dayOfYear ⟨y, m2, d2⟩ := by
  show cumAdj y m1 + d1 ≤ cumAdj y m2 + d2
  rcases hlex with hm | ⟨hm, hd⟩
  · have e2 := cumAdj_step y m1 h1 (by omega)
    have e3 := cumAdj_le y (m1 + 1) (by omega) m2 (by omega) h6
    omega
  · rw [hm] at h4 ⊢
    omega

/-- No month is longer than 31 days. -/
theorem daysInMonth_le_31 (y m : Nat) : daysInMonth y m ≤ 31 := by
  unfold daysInMonth
  split
  · split <;> omega
  · split <;> omega

/-- December 31 is the latest day of its year. -/
theorem dayOfYear_le_dec31 (dt : Date) (hv : validDate dt) :
    dayOfYear dt ≤ dayOfYear ⟨dt.y, 12, 31⟩ := by
  obtain ⟨_, hm1, hm2, _, hd2⟩ := hv
  have : dayOfYear dt = dayOfYear ⟨dt.y, dt.m, dt.d⟩ := rfl
  rw [this]
  refine dayOfYear_mono_within dt.y dt.m dt.d 12 31 hm1 hm2 hd2 (by omega) ?_
  rcases Nat.lt_or_ge dt.m 12 with hlt | hge
  · exact Or.inl hlt
  · have he : dt.m = 12 := by omega
    refine Or.inr ⟨he, ?_⟩
    have := daysInMonth_le_31 dt.y dt.m
    omega

/-- Unfolding of `daysBeforeYear` at a positive year. -/
theorem daysBeforeYear_succ_pred (y : Nat) (hy : 1 ≤ y) :
    daysBeforeYear y =
      daysBeforeYear (y - 1) + (if isLeap y = true then 366 else 365) := by
  obtain ⟨k, rfl⟩ : ∃ k, y = k + 1 := ⟨y - 1, by omega⟩
  simp [daysBeforeYear]

/-- The total day count of completed years is monotone. -/
theorem daysBeforeYear_mono {y1 y2 : Nat} (h : y1 ≤ y2) :
    daysBeforeYear y1 ≤ daysBeforeYear y2 := by
  induction y2 with
  | zero =>
    have he : y1 = 0 := by omega
    rw [he]
  | succ n ih =>
    rcases Nat.lt_or_ge y1 (n + 1) with hlt | hge
    · have h2 := ih (by omega)
      have he : daysBeforeYear (n + 1) =
          daysBeforeYear n + (if isLeap (n + 1) = true then 366 else 365) := rfl
      by_cases hL : isLeap (n + 1) = true <;> rw [he] <;> simp [hL] <;> omega
    · have he : y1 = n + 1 := by omega
      rw [he]

/-- The day after December 31 is January 1 of the next year. -/
theorem toDayNumber_dec31_add_one (y : Nat) (hy : 1 ≤ y) :
    toDayNumber ⟨y, 12, 31⟩ + 1 = toDayNumber ⟨y + 1, 1, 1⟩ := by
  show daysBeforeYear (y - 1) + dayOfYear ⟨y, 12, 31⟩ + 1 =
    daysBeforeYear (y + 1 - 1) + dayOfYear ⟨y + 1, 1, 1⟩
  rw [Nat.add_sub_cancel]
  have e1 : dayOfYear ⟨y + 1, 1, 1⟩ = 1 := rfl
  have e2 := daysBeforeYear_succ_pred y hy
  have e3 : dayOfYear ⟨y, 12, 31⟩ = 334 + (if isLeap y = true then 1 else 0) + 31 := by
    show cumAdj y 12 + 31 = _
    simp [cumAdj, cumDaysBefore]
  by_cases hL : isLeap y = true <;> simp [hL] at e2 e3 <;> omega

/-- The day number respects the calendar order on valid dates. -/
theorem toDayNumber_mono {a b : Date} (ha : validDate a) (hb : validDate b)
    (hab : dateLe a b = true) : toDayNumber a ≤ toDayNumber b := by
  have hay := ha.1
  have hby : 1 ≤ dayOfYear b := by
    have := hb.2.2.2.1
    simp only [dayOfYear]
    omega
  simp only [dateLe, decide_eq_true_eq] at hab
  rcases hab with hy | ⟨hy, hmd⟩
  · have hstep := toDayNumber_dec31_add_one a.y hay
    have e0 : toDayNumber a = daysBeforeYear (a.y - 1) + dayOfYear a := rfl
    have e1 : toDayNumber ⟨a.y, 12, 31⟩ =
        daysBeforeYear (a.y - 1) + dayOfYear ⟨a.y, 12, 31⟩ := rfl
    have e2 : toDayNumber ⟨a.y + 1, 1, 1⟩ = daysBeforeYear a.y + 1 := by
      show daysBeforeYear (a.y + 1 - 1) + dayOfYear ⟨a.y + 1, 1, 1⟩ = daysBeforeYear a.y + 1
      rw [Nat.add_sub_cancel]
      have hd1 : dayOfYear ⟨a.y + 1, 1, 1⟩ = 1 := rfl
      omega
    have e3 : toDayNumber b = daysBeforeYear (b.y - 1) + dayOfYear b := rfl
    have h1 : dayOfYear a ≤ dayOfYear ⟨a.y, 12, 31⟩ := dayOfYear_le_dec31 a ha
    have hmono : daysBeforeYear a.y ≤ daysBeforeYear (b.y - 1) :=
      daysBeforeYear_mono (by omega)
    omega
  · unfold toDayNumber
    rw [hy]
    have hwithin : dayOfYear a ≤ dayOfYear b := by
      have e1 : dayOfYear a = dayOfYear ⟨a.y, a.m, a.d⟩ := rfl
      have e2 : dayOfYear b = dayOfYear ⟨b.y, b.m, b.d⟩ := rfl
      have e3 : dayOfYear ⟨a.y, a.m, a.d⟩ = dayOfYear ⟨b.y, a.m, a.d⟩ := by rw [hy]
      rw [e1, e2, e3]
      have h4 : a.d ≤ daysInMonth b.y a.m := by
        have := ha.2.2.2.2
        rw [hy] at this
        exact this
      exact dayOfYear_mono_within b.y a.m a.d b.m b.d ha.2.1 ha.2.2.1 h4 hb.2.2.1 hmd
    omega

/-- The last element of a filtered range is the greatest index below the
bound satisfying the predicate. -/
theorem getLast_filter_range {p : Nat → Bool} :
    ∀ {i j : Nat}, j < i → p j = true → (∀ k, j < k → k < i → p k = false) →
      ((List.range i).filter p).getLast? = some j := by
  intro i
  induction i with
  | zero => intro j h; omega
  | succ n ih =>
    intro j hj hpj hafter
    rw [List.range_succ, List.filter_append]
    rcases Nat.lt_or_ge j n with hlt | hge
    · have hpn : p n = false := hafter n hlt (by omega)
      simp only [List.filter_cons, List.filter_nil, hpn, Bool.false_eq_true,
        if_false, List.append_nil]
      exact ih hlt hpj (fun k h1 h2 => hafter k h1 (by omega))
    · have he : j = n := by omega
      subst he
      simp only [List.filter_cons, List.filter_nil, hpj, if_true]
      exact List.getLast?_concat _

/-- Characterisation of the previous-in-group position: the row just
before `i` in its group. -/
theorem prevIdxBy_eq_some {α κ : Type} [DecidableEq κ] (key : α → Option κ)
    (l : List α) (i j : Nat) (hj : j < i) (hkey : keyAt key l j = keyAt key l i)
    (hsome : keyAt key l i ≠ none)
    (hbetween : ∀ k, j < k → k < i → keyAt key l k ≠ keyAt key l i) :
    prevIdxBy key l i = some j := by
  unfold prevIdxBy
  cases hk : keyAt key l i with
  | none => exact absurd hk hsome
  | some c =>
    apply getLast_filter_range hj
    · simp only [decide_eq_true_eq]
      exact hkey.trans hk
    · intro k h1 h2
      simp only [decide_eq_false_iff_not]
      rw [← hk]
      exact hbetween k h1 h2

/-- A row opening its group has no previous-in-group position. -/
theorem prevIdxBy_eq_none_of_first {α κ : Type} [DecidableEq κ]
    (key : α → Option κ) (l : List α) (i : Nat)
    (hfirst : ∀ j, j < i → keyAt key l j ≠ keyAt key l i) :
    prevIdxBy key l i = none := by
  unfold prevIdxBy
  cases hk : keyAt key l i with
  | none => rfl
  | some c =>
    have hnil : (List.range i).filter
        (fun j => decide (keyAt key l j = some c)) = [] := by
      rw [List.filter_eq_nil_iff]
      intro a ha
      simp only [decide_eq_true_eq]
      rw [← hk]
      exact hfirst a (List.mem_range.1 ha)
    show ((List.range i).filter
      (fun j => decide (keyAt key l j = some c))).getLast? = none
    rw [hnil]
    rfl

/-- C5: in the grouped temporal-delta computation
`df.groupby(key)[col].diff().dt.days`, the first chronological record of
every group gets a missing delta, and every subsequent record of a
chronologically ordered group gets a non-negative whole number of days,
the exact day difference from the immediately preceding record of the
same group. -/
theorem diffDaysBy_spec {α κ : Type} [DecidableEq κ] (key : α → Option κ)
    (dateOf : α → Option Date) (l : List α) (i : Nat) (hi : i < l.length) :
    ((∀ j, j < i → keyAt key l j ≠ keyAt key l i) →
      (diffDaysBy key dateOf l)[i]? = some none) ∧
    (∀ j, j < i → keyAt key l j = keyAt key l i → keyAt key l i ≠ none →
      (∀ k, j < k → k < i → keyAt key l k ≠ keyAt key l i) →
      ∀ di dj, dateAt dateOf l i = some di → dateAt dateOf l j = some dj →
      validDate di → validDate dj → dateLe dj di = true →
      (diffDaysBy key dateOf l)[i]? =
          some (some ((toDayNumber di : Int) - (toDayNumber dj : Int))) ∧
        0 ≤ (toDayNumber di : Int) - (toDayNumber dj : Int)) := by
  have hbase : (diffDaysBy key dateOf l)[i]? = some
      (match prevIdxBy key l i with
       | none => none
       | some j =>
         match dateAt dateOf l i, dateAt dateOf l j with
         | some di, some dj =>
           some ((toDayNumber di : Int) - (toDayNumber dj : Int))
         | _, _ => none) := by
    unfold diffDaysBy
    rw [List.getElem?_map, List.getElem?_range hi]
    rfl
  constructor
  · intro hfirst
    rw [hbase, prevIdxBy_eq_none_of_first key l i hfirst]
  · intro j hj hkey hsome hbetween di dj hdi hdj hvi hvj hord
    have hstep : (diffDaysBy key dateOf l)[i]? = some
        (match dateAt dateOf l i, dateAt dateOf l j with
         | some di, some dj =>
           some ((toDayNumber di : Int) - (toDayNumber dj : Int))
         | _, _ => none) := by
      rw [hbase, prevIdxBy_eq_some key l i j hj hkey hsome hbetween]
    rw [hstep, hdi, hdj]
    refine ⟨rfl, ?_⟩
    have := toDayNumber_mono hvj hvi hord
    omega

/-- Witness for C5 at the concrete two-row due table of customer 7
(dates 2023-05-02 and 2023-05-11). -/
theorem diffDaysBy_spec_witness :
    (1 < ([exDueA, exDueB] : List DueRow).length) ∧
      (((∀ j, j < 1 →
          keyAt DueRow.lan [exDueA, exDueB] j ≠
            keyAt DueRow.lan [exDueA, exDueB] 1) →
        (diffDaysBy DueRow.lan DueRow.due_date [exDueA, exDueB])[1]? =
          some none) ∧
      (∀ j, j < 1 →
        keyAt DueRow.lan [exDueA, exDueB] j =
          keyAt DueRow.lan [exDueA, exDueB] 1 →
        keyAt DueRow.lan [exDueA, exDueB] 1 ≠ none →
        (∀ k, j < k → k < 1 →
          keyAt DueRow.lan [exDueA, exDueB] k ≠
            keyAt DueRow.lan [exDueA, exDueB] 1) →
        ∀ di dj, dateAt DueRow.due_date [exDueA, exDueB] 1 = some di →
        dateAt DueRow.due_date [exDueA, exDueB] j = some dj →
        validDate di → validDate dj → dateLe dj di = true →
        (diffDaysBy DueRow.lan DueRow.due_date [exDueA, exDueB])[1]? =
            some (some ((toDayNumber di : Int) - (toDayNumber dj : Int))) ∧
          0 ≤ (toDayNumber di : Int) - (toDayNumber dj : Int))) :=
  ⟨by decide, diffDaysBy_spec DueRow.lan DueRow.due_date [exDueA, exDueB] 1
    (by decide)⟩

/-- The 0/1 column `is_pl = (df['due_level_tenor_type'] == 'PL only')`
at row `i`; a pandas equality comparison with a missing value is false. -/
def isPlAt (l : List DueRow) (i : Nat) : Nat :=
  match l[i]? with
  | some r => if r.due_level_tenor_type = some "PL only" then 1 else 0
  | none => 0

/-- Position of the next row of the same group (`shift(-1)` within the
group), when it exists. -/
def nextIdxBy {α κ : Type} [DecidableEq κ] (key : α → Option κ) (l : List α)
    (i : Nat) : Option Nat :=
  match keyAt key l i with
  | none => none
  | some _ =>
    ((List.range l.length).filter
      (fun j => decide (i < j ∧ keyAt key l j = keyAt key l i))).head?

/-- The shifted column `df.groupby('lan')['is_pl'].shift()` at row `i`. -/
def shiftPl (l : List DueRow) (i : Nat) : Option Nat :=
  (prevIdxBy DueRow.lan l i).map (isPlAt l)

/-- The comparison `df['is_pl'] != df.groupby('lan')['is_pl'].shift()`:
pandas compares the integer against the shifted value, and a comparison
with the missing shift of a group-opening row is true, so such rows start
a new segment. -/
def newSeg (l : List DueRow) (i : Nat) : Bool :=
  decide (shiftPl l i ≠ some (isPlAt l i))

/-- The running `streak_id = (...).cumsum()` at row `i`: the number of
segment starts up to and including `i`. -/
def streakId (l : List DueRow) (i : Nat) : Nat :=
  (List.range (i + 1)).countP (fun j => newSeg l j)

/-- The `df.groupby('streak_id').cumcount()` value at row `i`: the number
of earlier rows carrying the same `streak_id`. -/
def cumcountSeg (l : List DueRow) (i : Nat) : Nat :=
  (List.range i).countP (fun j => decide (streakId l j = streakId l i))

/-- The column `current_pl_streak = (cumcount + 1) * is_pl` at row `i`. -/
def currentPlAt (l : List DueRow) (i : Nat) : Nat :=
  (cumcountSeg l i + 1) * isPlAt l i

/-- The shifted column `groupby('lan')['is_pl'].shift(-1)` at row `i`. -/
def nextPl (l : List DueRow) (i : Nat) : Option Nat :=
  (nextIdxBy DueRow.lan l i).map (isPlAt l)

/-- The column `is_pl_streak_end = ((is_pl == 1) &
(shift(-1).fillna(0) != 1))` at row `i`. -/
def streakEndAt (l : List DueRow) (i : Nat) : Nat :=
  if isPlAt l i = 1 ∧ (nextPl l i).getD 0 ≠ 1 then 1 else 0

/-- Embedding of `add_streak_features`: every row receives the two
derived columns `current_pl_streak` and `is_pl_streak_end`; the
intermediate `is_pl` and `streak_id` columns are dropped again. -/
def add_streak_features (l : List DueRow) : List DueRow :=
  (List.range l.length).map (fun i =>
    match l[i]? with
    | some r => { r with current_pl_streak := some (currentPlAt l i),
                         is_pl_streak_end := some (streakEndAt l i) }
    | none => default)

/-- The `is_pl` column only takes the values 0 and 1. -/
theorem isPlAt_zero_or_one (l : List DueRow) (i : Nat) :
    isPlAt l i = 0 ∨ isPlAt l i = 1 := by
  unfold isPlAt
  cases l[i]? with
  | none => exact Or.inl rfl
  | some r =>
    by_cases h : r.due_level_tenor_type = some "PL only" <;> simp [h]

/-- Count over a range extended by one element. -/
theorem countP_range_succ (p : Nat → Bool) (i : Nat) :
    (List.range (i + 1)).countP p =
      (List.range i).countP p + (if p i = true then 1 else 0) := by
  rw [List.range_succ, List.countP_append]
  simp [List.countP_cons]

/-- Counts over ranges are monotone in the bound. -/
theorem countP_range_mono (p : Nat → Bool) {i j : Nat} (h : i ≤ j) :
    (List.range i).countP p ≤ (List.range j).countP p := by
  induction j with
  | zero =>
    have he : i = 0 := by omega
    rw [he]
  | succ n ih =>
    rcases Nat.lt_or_ge i (n + 1) with hlt | hge
    · calc (List.range i).countP p ≤ (List.range n).countP p := ih (by omega)
        _ ≤ _ := by rw [countP_range_succ]; omega
    · have he : i = n + 1 := by omega
      rw [he]

/-- A group-opening row (no previous same-group row) starts a segment. -/
theorem newSeg_of_prev_none {l : List DueRow} {i : Nat}
    (h : prevIdxBy DueRow.lan l i = none) : newSeg l i = true := by
  unfold newSeg shiftPl
  rw [h]
  simp

/-- The first row of the table has no previous same-group row. -/
theorem prevIdxBy_zero {α κ : Type} [DecidableEq κ] (key : α → Option κ)
    (l : List α) : prevIdxBy key l 0 = none := by
  unfold prevIdxBy
  cases keyAt key l 0 <;> rfl

/-- The streak id grows by the new-segment flag. -/
theorem streakId_succ (l : List DueRow) (i : Nat) :
    streakId l (i + 1) =
      streakId l i + (if newSeg l (i + 1) = true then 1 else 0) :=
  countP_range_succ _ _

/-- Streak ids are nondecreasing along the table. -/
theorem streakId_mono (l : List DueRow) {i j : Nat} (h : i ≤ j) :
    streakId l i ≤ streakId l j :=
  countP_range_mono _ (by omega)

/-- A segment-starting row has cumcount zero. -/
theorem cumcountSeg_eq_zero {l : List DueRow} {i : Nat}
    (h : newSeg l i = true) : cumcountSeg l i = 0 := by
  unfold cumcountSeg
  rw [List.countP_eq_zero]
  intro j hj
  simp only [decide_eq_true_eq]
  intro heq
  have hji : j < i := List.mem_range.1 hj
  have e1 : streakId l i = (List.range i).countP (fun k => newSeg l k) + 1 := by
    have e := countP_range_succ (fun k => newSeg l k) i
    rw [h] at e
    simpa using e
  have e2 : streakId l j ≤ (List.range i).countP (fun k => newSeg l k) :=
    countP_range_mono _ (by omega)
  omega

/-- A segment-continuing row increments cumcount. -/
theorem cumcountSeg_succ {l : List DueRow} {i : Nat}
    (h : newSeg l (i + 1) = false) :
    cumcountSeg l (i + 1) = cumcountSeg l i + 1 := by
  have hsid : streakId l (i + 1) = streakId l i := by
    rw [streakId_succ, h]
    simp
  unfold cumcountSeg
  rw [countP_range_succ, hsid]
  simp

/-- The streak counter of a segment-starting PL row is one. -/
theorem currentPlAt_start {l : List DueRow} {i : Nat}
    (hn : newSeg l i = true) (hp : isPlAt l i = 1) : currentPlAt l i = 1 := by
  unfold currentPlAt
  rw [cumcountSeg_eq_zero hn, hp]

/-- The streak counter of a segment-continuing PL row increments. -/
theorem currentPlAt_cont {l : List DueRow} {i : Nat}
    (hn : newSeg l (i + 1) = false) (hp : isPlAt l (i + 1) = 1)
    (hp0 : isPlAt l i = 1) :
    currentPlAt l (i + 1) = currentPlAt l i + 1 := by
  unfold currentPlAt
  rw [cumcountSeg_succ hn, hp, hp0]
  ring

/-- With every customer id present, the key column is present at every
position. -/
theorem keyAt_ne_none {l : List DueRow} (hsome : ∀ r ∈ l, r.lan ≠ none)
    {i : Nat} (hi : i < l.length) : keyAt DueRow.lan l i ≠ none := by
  unfold keyAt
  rw [List.getElem?_eq_getElem hi]
  exact hsome _ (List.getElem_mem hi)

/-- Sortedness by customer id, read at the index level. -/
theorem keyAt_mono {l : List DueRow}
    (hsort : l.Pairwise (fun r s => ∀ a b, r.lan = some a → s.lan = some b → a ≤ b))
    {i j a b : Nat} (hij : i ≤ j) (hj : j < l.length)
    (ha : keyAt DueRow.lan l i = some a) (hb : keyAt DueRow.lan l j = some b) :
    a ≤ b := by
  rcases Nat.eq_or_lt_of_le hij with he | hlt
  · subst he
    rw [ha] at hb
    injection hb with h
    omega
  · have hi : i < l.length := by omega
    have hpw := (List.pairwise_iff_getElem.1 hsort) i j hi hj hlt
    unfold keyAt at ha hb
    rw [List.getElem?_eq_getElem hi] at ha
    rw [List.getElem?_eq_getElem hj] at hb
    exact hpw a b ha hb

/-- Under sortedness, the previous same-group row of `i + 1` is `i`
exactly when the keys agree. -/
theorem prevIdxBy_adjacent {l : List DueRow}
    (hsome : ∀ r ∈ l, r.lan ≠ none)
    (hsort : l.Pairwise (fun r s => ∀ a b, r.lan = some a → s.lan = some b → a ≤ b))
    {i : Nat} (hi : i + 1 < l.length) :
    prevIdxBy DueRow.lan l (i + 1) =
      if keyAt DueRow.lan l i = keyAt DueRow.lan l (i + 1) then some i
      else none := by
  by_cases he : keyAt DueRow.lan l i = keyAt DueRow.lan l (i + 1)
  · rw [if_pos he]
    exact prevIdxBy_eq_some _ _ _ _ (by omega) he (keyAt_ne_none hsome hi)
      (fun k h1 h2 => by omega)
  · rw [if_neg he]
    apply prevIdxBy_eq_none_of_first
    intro j hj hkeq
    obtain ⟨b, hb⟩ := Option.ne_none_iff_exists'.1 (keyAt_ne_none hsome hi)
    obtain ⟨a, ha⟩ :=
      Option.ne_none_iff_exists'.1 (keyAt_ne_none hsome (show i < l.length by omega))
    have hjb : keyAt DueRow.lan l j = some b := by rw [hkeq, hb]
    have h1 : b ≤ a := keyAt_mono hsort (by omega) (by omega) hjb ha
    have h2 : a ≤ b := keyAt_mono hsort (by omega) hi ha hb
    have hab : a = b := by omega
    apply he
    rw [ha, hb, hab]

/-- The first element of a filtered range is the least index satisfying
the predicate. -/
theorem head_filter_range {p : Nat → Bool} :
    ∀ {n j : Nat}, j < n → p j = true → (∀ k, k < j → p k = false) →
      ((List.range n).filter p).head? = some j := by
  intro n
  induction n with
  | zero => intro j h; omega
  | succ m ih =>
    intro j hj hpj hbefore
    rw [List.range_succ, List.filter_append]
    rcases Nat.lt_or_ge j m with hlt | hge
    · rw [List.head?_append, ih hlt hpj hbefore]
      rfl
    · have he : j = m := by omega
      subst he
      have hnil : (List.range j).filter p = [] := by
        rw [List.filter_eq_nil_iff]
        intro a ha
        rw [hbefore a (List.mem_range.1 ha)]
        simp
      rw [hnil]
      simp [List.filter_cons, hpj]

/-- A row whose group ends with it has no next same-group row. -/
theorem nextIdxBy_eq_none {α κ : Type} [DecidableEq κ] (key : α → Option κ)
    (l : List α) (i : Nat)
    (hno : ∀ j, i < j → j < l.length → keyAt key l j ≠ keyAt key l i) :
    nextIdxBy key l i = none := by
  unfold nextIdxBy
  cases hk : keyAt key l i with
  | none => rfl
  | some c =>
    have hnil : (List.range l.length).filter
        (fun j => decide (i < j ∧ keyAt key l j = some c)) = [] := by
      rw [List.filter_eq_nil_iff]
      intro a ha
      simp only [decide_eq_true_eq, not_and]
      intro hia hkeq
      exact hno a hia (List.mem_range.1 ha) (by rw [hkeq, ← hk])
    show ((List.range l.length).filter
      (fun j => decide (i < j ∧ keyAt key l j = some c))).head? = none
    rw [hnil]
    rfl

/-- Under sortedness, the next same-group row of `i` is `i + 1` exactly
when it exists and the keys agree. -/
theorem nextIdxBy_adjacent {l : List DueRow}
    (hsome : ∀ r ∈ l, r.lan ≠ none)
    (hsort : l.Pairwise (fun r s => ∀ a b, r.lan = some a → s.lan = some b → a ≤ b))
    {i : Nat} (hi : i < l.length) :
    nextIdxBy DueRow.lan l i =
      if i + 1 < l.length ∧ keyAt DueRow.lan l (i + 1) = keyAt DueRow.lan l i
      then some (i + 1) else none := by
  by_cases hc : i + 1 < l.length ∧ keyAt DueRow.lan l (i + 1) = keyAt DueRow.lan l i
  · rw [if_pos hc]
    unfold nextIdxBy
    cases hk : keyAt DueRow.lan l i with
    | none => exact absurd hk (keyAt_ne_none hsome hi)
    | some c =>
      apply head_filter_range hc.1
      · simp only [decide_eq_true_eq]
        exact ⟨by omega, by rw [hc.2, hk]⟩
      · intro k hk2
        simp only [decide_eq_false_iff_not, not_and]
        intro hik
        omega
  · rw [if_neg hc]
    apply nextIdxBy_eq_none
    intro j hij hjn hkeq
    rcases Nat.lt_or_ge (i + 1) l.length with hlt | hge
    · have hne : keyAt DueRow.lan l (i + 1) ≠ keyAt DueRow.lan l i :=
        fun he => hc ⟨hlt, he⟩
      obtain ⟨a, ha⟩ := Option.ne_none_iff_exists'.1 (keyAt_ne_none hsome hi)
      obtain ⟨b, hb⟩ := Option.ne_none_iff_exists'.1 (keyAt_ne_none hsome hlt)
      obtain ⟨e, he⟩ := Option.ne_none_iff_exists'.1 (keyAt_ne_none hsome hjn)
      have hea : e = a := by
        rw [hkeq] at he
        rw [he] at ha
        exact Option.some.inj ha
      have h1 : a ≤ b := keyAt_mono hsort (by omega) hlt ha hb
      have h2 : b ≤ e := keyAt_mono hsort (by omega) hjn hb he
      have hba : b = a := by omega
      apply hne
      rw [hb, ha, hba]
    · omega

/-- Under sortedness, a row continues a segment exactly when the previous
row belongs to the same group and has the same `is_pl` value. -/
theorem newSeg_false_iff {l : List DueRow}
    (hsome : ∀ r ∈ l, r.lan ≠ none)
    (hsort : l.Pairwise (fun r s => ∀ a b, r.lan = some a → s.lan = some b → a ≤ b))
    {i : Nat} (hi : i + 1 < l.length) :
    newSeg l (i + 1) = false ↔
      keyAt DueRow.lan l i = keyAt DueRow.lan l (i + 1) ∧
        isPlAt l i = isPlAt l (i + 1) := by
  unfold newSeg shiftPl
  rw [prevIdxBy_adjacent hsome hsort hi]
  by_cases he : keyAt DueRow.lan l i = keyAt DueRow.lan l (i + 1)
  · rw [if_pos he]
    simp [he]
  · rw [if_neg he]
    simp [he]

/-- The streak-end flag only takes the values 0 and 1. -/
theorem streakEndAt_zero_or_one (l : List DueRow) (i : Nat) :
    streakEndAt l i = 0 ∨ streakEndAt l i = 1 := by
  unfold streakEndAt
  split <;> simp

/-- A non-PL row is never flagged as a streak end. -/
theorem streakEndAt_zero_of_not_pl {l : List DueRow} {i : Nat}
    (hp : isPlAt l i ≠ 1) : streakEndAt l i = 0 := by
  unfold streakEndAt
  simp [hp]

/-- A PL row with no following PL row of the same customer is a streak
end. -/
theorem streakEndAt_of_no_next {l : List DueRow}
    (hsome : ∀ r ∈ l, r.lan ≠ none)
    (hsort : l.Pairwise (fun r s => ∀ a b, r.lan = some a → s.lan = some b → a ≤ b))
    {i : Nat} (hi : i < l.length) (hp : isPlAt l i = 1)
    (hnot : ¬(i + 1 < l.length ∧
      keyAt DueRow.lan l (i + 1) = keyAt DueRow.lan l i ∧ isPlAt l (i + 1) = 1)) :
    streakEndAt l i = 1 := by
  unfold streakEndAt nextPl
  rw [nextIdxBy_adjacent hsome hsort hi]
  by_cases hc : i + 1 < l.length ∧
      keyAt DueRow.lan l (i + 1) = keyAt DueRow.lan l i
  · rw [if_pos hc]
    have hne : isPlAt l (i + 1) ≠ 1 := fun h => hnot ⟨hc.1, hc.2, h⟩
    simp [hp, hne]
  · rw [if_neg hc]
    simp [hp]

/-- A PL row followed by a PL row of the same customer is not a streak
end. -/
theorem streakEndAt_zero_of_next {l : List DueRow}
    (hsome : ∀ r ∈ l, r.lan ≠ none)
    (hsort : l.Pairwise (fun r s => ∀ a b, r.lan = some a → s.lan = some b → a ≤ b))
    {i : Nat} (hi : i < l.length) (h1 : i + 1 < l.length)
    (h2 : keyAt DueRow.lan l (i + 1) = keyAt DueRow.lan l i)
    (h3 : isPlAt l (i + 1) = 1) :
    streakEndAt l i = 0 := by
  have hnext : nextIdxBy DueRow.lan l i = some (i + 1) := by
    rw [nextIdxBy_adjacent hsome hsort hi, if_pos ⟨h1, h2⟩]
  unfold streakEndAt nextPl
  rw [hnext]
  simp [h3]

/-- Decoding a zero streak-end flag on a PL row: the next row exists, has
the same customer, and is PL. -/
theorem next_pl_of_streakEnd_zero {l : List DueRow}
    (hsome : ∀ r ∈ l, r.lan ≠ none)
    (hsort : l.Pairwise (fun r s => ∀ a b, r.lan = some a → s.lan = some b → a ≤ b))
    {i : Nat} (hi : i < l.length) (hp : isPlAt l i = 1)
    (hz : streakEndAt l i = 0) :
    i + 1 < l.length ∧
      keyAt DueRow.lan l (i + 1) = keyAt DueRow.lan l i ∧
      isPlAt l (i + 1) = 1 := by
  by_contra hnot
  rw [streakEndAt_of_no_next hsome hsort hi hp hnot] at hz
  exact absurd hz one_ne_zero

/-- Partial sum, over the first `i` rows, of the streak counters recorded
at the streak-end rows of customer `c`. -/
def streakEndSum (l : List DueRow) (c : Nat) (i : Nat) : Nat :=
  ((List.range i).map (fun j =>
    if keyAt DueRow.lan l j = some c ∧ streakEndAt l j = 1
    then currentPlAt l j else 0)).sum

/-- Number of PL rows of customer `c` among the first `i` rows. -/
def plCount (l : List DueRow) (c : Nat) (i : Nat) : Nat :=
  (List.range i).countP
    (fun j => decide (keyAt DueRow.lan l j = some c ∧ isPlAt l j = 1))

/-- Length of the still-open PL run of customer `c` just before row `i`. -/
def openRun (l : List DueRow) (c : Nat) (i : Nat) : Nat :=
  if 0 < i ∧ keyAt DueRow.lan l (i - 1) = some c ∧ isPlAt l (i - 1) = 1 ∧
      streakEndAt l (i - 1) = 0
  then currentPlAt l (i - 1) else 0

/-- Step equation for the streak-end sum. -/
theorem streakEndSum_succ (l : List DueRow) (c : Nat) (i : Nat) :
    streakEndSum l c (i + 1) = streakEndSum l c i +
      (if keyAt DueRow.lan l i = some c ∧ streakEndAt l i = 1
       then currentPlAt l i else 0) := by
  unfold streakEndSum
  rw [List.range_succ, List.map_append, List.sum_append]
  simp

/-- Step equation for the PL-row count. -/
theorem plCount_succ (l : List DueRow) (c : Nat) (i : Nat) :
    plCount l c (i + 1) = plCount l c i +
      (if keyAt DueRow.lan l i = some c ∧ isPlAt l i = 1 then 1 else 0) := by
  unfold plCount
  rw [countP_range_succ]
  simp only [decide_eq_true_eq]

/-- The open run before row `i` is empty unless row `i` itself is a PL
row of the customer: a PL run left open at row `i - 1` continues into
row `i`. -/
theorem openRun_zero {l : List DueRow}
    (hsome : ∀ r ∈ l, r.lan ≠ none)
    (hsort : l.Pairwise (fun r s => ∀ a b, r.lan = some a → s.lan = some b → a ≤ b))
    {c i : Nat} (hi : i < l.length)
    (hnot : ¬(keyAt DueRow.lan l i = some c ∧ isPlAt l i = 1)) :
    openRun l c i = 0 := by
  unfold openRun
  apply if_neg
  rintro ⟨h0, hkp, hpp, hep⟩
  have hj : (i - 1) + 1 = i := by omega
  have hdec := next_pl_of_streakEnd_zero hsome hsort
    (show i - 1 < l.length by omega) hpp hep
  rw [hj] at hdec
  exact hnot ⟨hdec.2.1.trans hkp, hdec.2.2⟩

/-- The open run before a segment-starting row is empty. -/
theorem openRun_zero_of_newSeg {l : List DueRow}
    (hsome : ∀ r ∈ l, r.lan ≠ none)
    (hsort : l.Pairwise (fun r s => ∀ a b, r.lan = some a → s.lan = some b → a ≤ b))
    {c i : Nat} (hi : i < l.length) (hns : newSeg l i = true) :
    openRun l c i = 0 := by
  unfold openRun
  apply if_neg
  rintro ⟨h0, hkp, hpp, hep⟩
  have hj : (i - 1) + 1 = i := by omega
  have hdec := next_pl_of_streakEnd_zero hsome hsort
    (show i - 1 < l.length by omega) hpp hep
  rw [hj] at hdec
  have hnsf : newSeg l i = false := by
    rw [← hj]
    refine (newSeg_false_iff hsome hsort (by omega)).2 ⟨?_, ?_⟩
    · rw [hj]
      exact hdec.2.1.symm
    · rw [hj]
      rw [hpp, hdec.2.2]
  rw [hnsf] at hns
  exact absurd hns (by simp)

/-- The bookkeeping invariant of the streak computation: among the first
`i` rows, the PL rows of customer `c` are exactly accounted for by the
closed streaks (summed at their end rows) plus the still-open run. -/
theorem streak_invariant (l : List DueRow)
    (hsome : ∀ r ∈ l, r.lan ≠ none)
    (hsort : l.Pairwise (fun r s => ∀ a b, r.lan = some a → s.lan = some b → a ≤ b))
    (c : Nat) :
    ∀ i, i ≤ l.length → plCount l c i = streakEndSum l c i + openRun l c i := by
  intro i
  induction i with
  | zero =>
    intro _
    simp [plCount, streakEndSum, openRun]
  | succ i ih =>
    intro hi1
    have hi : i < l.length := by omega
    have hIH := ih (by omega)
    rw [plCount_succ, streakEndSum_succ]
    have hor1 : openRun l c (i + 1) =
        if keyAt DueRow.lan l i = some c ∧ isPlAt l i = 1 ∧
            streakEndAt l i = 0
        then currentPlAt l i else 0 := by
      unfold openRun
      simp only [Nat.add_sub_cancel]
      by_cases hx : keyAt DueRow.lan l i = some c ∧ isPlAt l i = 1 ∧
          streakEndAt l i = 0
      · rw [if_pos ⟨by omega, hx.1, hx.2.1, hx.2.2⟩, if_pos hx]
      · rw [if_neg (fun h => hx ⟨h.2.1, h.2.2.1, h.2.2.2⟩), if_neg hx]
    rw [hor1]
    by_cases hkc : keyAt DueRow.lan l i = some c
    · by_cases hpl : isPlAt l i = 1
      · by_cases hns : newSeg l i = true
        · have hcps : currentPlAt l i = 1 := currentPlAt_start hns hpl
          have hz1 : openRun l c i = 0 := openRun_zero_of_newSeg hsome hsort hi hns
          rcases streakEndAt_zero_or_one l i with hpse | hpse
          · rw [if_pos ⟨hkc, hpl⟩,
              if_neg (show ¬(keyAt DueRow.lan l i = some c ∧
                streakEndAt l i = 1) by rintro ⟨_, h2⟩; omega),
              if_pos ⟨hkc, hpl, hpse⟩]
            omega
          · rw [if_pos ⟨hkc, hpl⟩, if_pos ⟨hkc, hpse⟩,
              if_neg (show ¬(keyAt DueRow.lan l i = some c ∧ isPlAt l i = 1 ∧
                streakEndAt l i = 0) by rintro ⟨_, _, h3⟩; omega)]
            omega
        · have hns0 : newSeg l i = false := by
            cases hh : newSeg l i
            · rfl
            · exact absurd hh hns
          have h0 : 0 < i := by
            rcases Nat.eq_zero_or_pos i with hz | hp
            · subst hz
              have hx := newSeg_of_prev_none (prevIdxBy_zero DueRow.lan l)
              rw [hx] at hns0
              exact absurd hns0 (by simp)
            · exact hp
          obtain ⟨i0, rfl⟩ : ∃ i0, i = i0 + 1 := ⟨i - 1, by omega⟩
          have hiff := (newSeg_false_iff hsome hsort hi).1 hns0
          have hkp : keyAt DueRow.lan l i0 = some c := by rw [hiff.1, hkc]
          have hpp : isPlAt l i0 = 1 := by rw [hiff.2, hpl]
          have hpse0 : streakEndAt l i0 = 0 :=
            streakEndAt_zero_of_next hsome hsort (by omega) hi hiff.1.symm hpl
          have hcps : currentPlAt l (i0 + 1) = currentPlAt l i0 + 1 :=
            currentPlAt_cont hns0 hpl hpp
          have hopen : openRun l c (i0 + 1) = currentPlAt l i0 := by
            unfold openRun
            simp only [Nat.add_sub_cancel]
            rw [if_pos ⟨by omega, hkp, hpp, hpse0⟩]
          rw [hopen] at hIH
          rcases streakEndAt_zero_or_one l (i0 + 1) with hpse | hpse
          · rw [if_pos ⟨hkc, hpl⟩,
              if_neg (show ¬(keyAt DueRow.lan l (i0 + 1) = some c ∧
                streakEndAt l (i0 + 1) = 1) by rintro ⟨_, h2⟩; omega),
              if_pos ⟨hkc, hpl, hpse⟩]
            omega
          · rw [if_pos ⟨hkc, hpl⟩, if_pos ⟨hkc, hpse⟩,
              if_neg (show ¬(keyAt DueRow.lan l (i0 + 1) = some c ∧
                isPlAt l (i0 + 1) = 1 ∧ streakEndAt l (i0 + 1) = 0) by
                  rintro ⟨_, _, h3⟩; omega)]
            omega
      · have hz1 : openRun l c i = 0 :=
          openRun_zero hsome hsort hi (fun h => hpl h.2)
        rw [if_neg (fun h => hpl h.2),
          if_neg (show ¬(keyAt DueRow.lan l i = some c ∧
            streakEndAt l i = 1) by
              rintro ⟨_, h2⟩
              exact absurd (streakEndAt_zero_of_not_pl hpl) (by omega)),
          if_neg (fun h => hpl h.2.1)]
        omega
    · have hz1 : openRun l c i = 0 :=
        openRun_zero hsome hsort hi (fun h => hkc h.1)
      rw [if_neg (fun h => hkc h.1), if_neg (fun h => hkc h.1),
        if_neg (fun h => hkc h.1)]
      omega

/-- At the end of the table no PL run remains open: the last row of a
customer is always flagged as a streak end when it is PL. -/
theorem openRun_length_zero {l : List DueRow}
    (hsome : ∀ r ∈ l, r.lan ≠ none)
    (hsort : l.Pairwise (fun r s => ∀ a b, r.lan = some a → s.lan = some b → a ≤ b))
    (c : Nat) : openRun l c l.length = 0 := by
  unfold openRun
  apply if_neg
  rintro ⟨h0, hkp, hpp, hep⟩
  have hdec := next_pl_of_streakEnd_zero hsome hsort
    (show l.length - 1 < l.length by omega) hpp hep
  have := hdec.1
  omega

/-- The predicate `p` read through a position of the list `l`; false
past the end. -/
def rowPred {β : Type} (p : β → Bool) (l : List β) (j : Nat) : Bool :=
  match l[j]? with
  | some r => p r
  | none => false

/-- An index-predicate count over the positions of a list counts the
rows. -/
theorem countP_range_index {β : Type} (l : List β) (p : β → Bool) :
    (List.range l.length).countP (rowPred p l) = l.countP p := by
  induction l with
  | nil => rfl
  | cons a t ih =>
    have e1 : (rowPred p (a :: t) ∘ Nat.succ) = rowPred p t := by
      funext j
      simp only [Function.comp_apply, rowPred, Nat.succ_eq_add_one,
        List.getElem?_cons_succ]
    rw [List.length_cons, List.range_succ_eq_map, List.countP_cons,
      List.countP_map, e1, ih, List.countP_cons]
    simp only [rowPred, List.getElem?_cons_zero]

/-- Summing a mapped filter equals summing a guarded map. -/
theorem sum_map_filter_eq (p : Nat → Bool) (f : Nat → Nat) (l : List Nat) :
    ((l.filter p).map f).sum =
      (l.map (fun j => if p j = true then f j else 0)).sum := by
  induction l with
  | nil => rfl
  | cons a t ih =>
    cases hpa : p a <;> simp [List.filter_cons, hpa, ih]

/-- C4: after `add_streak_features` on a table sorted by customer id and
chronologically within each customer, the sum over the streak-end rows of
each customer of the recorded streak counter equals that customer's total
number of PL-only rows. -/
theorem add_streak_features_streak_sum (l : List DueRow)
    (hsome : ∀ r ∈ l, r.lan ≠ none)
    (hsort : l.Pairwise (fun r s => ∀ a b, r.lan = some a → s.lan = some b → a ≤ b))
    (_hchron : l.Pairwise (fun r s => r.lan = s.lan →
      optDateLeB r.due_date s.due_date = true))
    (c : Nat) :
    (((add_streak_features l).filter (fun r =>
        decide (r.lan = some c ∧ r.is_pl_streak_end = some 1))).map
      (fun r => r.current_pl_streak.getD 0)).sum =
      (l.filter (fun r =>
        decide (r.lan = some c ∧
          r.due_level_tenor_type = some "PL only"))).length := by
  have hrhs : (l.filter (fun r =>
      decide (r.lan = some c ∧
        r.due_level_tenor_type = some "PL only"))).length =
      plCount l c l.length := by
    rw [← List.countP_eq_length_filter]
    unfold plCount
    have hpred : (fun j =>
        decide (keyAt DueRow.lan l j = some c ∧ isPlAt l j = 1)) =
        rowPred (fun r => decide (r.lan = some c ∧
          r.due_level_tenor_type = some "PL only")) l := by
      funext j
      cases hj : l[j]? with
      | none => simp [keyAt, isPlAt, rowPred, hj]
      | some r =>
        simp only [keyAt, isPlAt, rowPred, hj]
        by_cases ht : r.due_level_tenor_type = some "PL only" <;> simp [ht]
    rw [hpred, countP_range_index l (fun r =>
      decide (r.lan = some c ∧ r.due_level_tenor_type = some "PL only"))]
  have hlhs : (((add_streak_features l).filter (fun r =>
      decide (r.lan = some c ∧ r.is_pl_streak_end = some 1))).map
      (fun r => r.current_pl_streak.getD 0)).sum =
      streakEndSum l c l.length := by
    unfold add_streak_features
    rw [List.filter_map, List.map_map, sum_map_filter_eq]
    unfold streakEndSum
    apply congrArg
    apply List.map_congr_left
    intro j hj
    have hjn : j < l.length := List.mem_range.1 hj
    have hr : l[j]? = some l[j] := List.getElem?_eq_getElem hjn
    have hk : keyAt DueRow.lan l j = l[j].lan := by
      unfold keyAt
      rw [hr]
    simp only [Function.comp, hr]
    by_cases h1 : l[j].lan = some c
    · by_cases h2 : streakEndAt l j = 1
      · simp [h1, h2, hk]
      · simp [h1, h2, hk]
    · simp [h1, hk]
  rw [hlhs, hrhs]
  have hinv := streak_invariant l hsome hsort c l.length (le_refl _)
  have hopen := openRun_length_zero hsome hsort c
  omega

/-- Witness for C4 at the one-row PL-only due table of customer 7. -/
theorem add_streak_features_streak_sum_witness :
    (∀ r ∈ [exDueRow], r.lan ≠ none) ∧
      (((add_streak_features [exDueRow]).filter (fun r =>
          decide (r.lan = some 7 ∧ r.is_pl_streak_end = some 1))).map
        (fun r => r.current_pl_streak.getD 0)).sum =
        ([exDueRow].filter (fun r =>
          decide (r.lan = some 7 ∧
            r.due_level_tenor_type = some "PL only"))).length :=
  ⟨by decide, add_streak_features_streak_sum [exDueRow] (by decide)
    (List.pairwise_singleton _ _) (List.pairwise_singleton _ _) 7⟩

/-- Modelled from the source text of `add_streak_features`: the state of
the caller's table after the call.  The function assigns `df['is_pl']`,
`df['streak_id']`, `df['current_pl_streak']` and `df['is_pl_streak_end']`
on the argument frame itself and drops the two intermediates with
`inplace=True`, so after the call the argument carries the two derived
columns — it is the returned table. -/
def add_streak_features_argAfter (df : List DueRow) : List DueRow :=
  add_streak_features df

/-- Modelled from the source text of `training_set_split`: the function
only reads `raw`, and each window is built from a filtered `.copy()`, so
the argument is unchanged after the call. -/
def training_set_split_argAfter {α : Type} (raw : List α) : List α := raw

/-- Modelled from the source text of `merge_dispositions_to_dues`: both
arguments are only read (`sort_values` and the lookup projection return
new frames), so both are unchanged after the call. -/
def merge_dispositions_to_dues_argAfter (df_due : List DueRow)
    (df_disposition : List DispRow) : List DueRow × List DispRow :=
  (df_due, df_disposition)

/-- Modelled from the source text of `aggregate_disposition_lan`: the
argument is only read by `groupby(...).agg(...)`; all column writes go to
the fresh `categorized` frame. -/
def aggregate_disposition_lan_argAfter (raw : List DispRow) : List DispRow :=
  raw

/-- Modelled from the source text of `aggregate_bounce_lan`: the argument
is only read by `groupby(...).agg(...)`. -/
def aggregate_bounce_lan_argAfter (raw : List DueRow) : List DueRow := raw

/-- C7 counterexample: `add_streak_features` does mutate its caller's
table — after the call on a one-row table whose streak columns are
absent, the argument carries the two derived columns, so it is no longer
equal to the table passed in. -/
theorem add_streak_features_mutates_cex :
    add_streak_features_argAfter [exDueA] ≠ [exDueA] := by decide

/-- C7 amended: `training_set_split`, `merge_dispositions_to_dues` and
the two aggregators leave their caller-owned arguments unchanged, but
`add_streak_features` writes its derived columns into the argument table
itself (the table it returns is the argument, modified), so any input
table with the streak columns absent is changed by the call. -/
theorem core_operations_frame_effects {α : Type} (due : List DueRow)
    (disp : List DispRow) (tbl : List α)
    (hnew : ∃ r ∈ due, r.current_pl_streak = none ∨ r.is_pl_streak_end = none) :
    training_set_split_argAfter tbl = tbl ∧
    merge_dispositions_to_dues_argAfter due disp = (due, disp) ∧
    aggregate_disposition_lan_argAfter disp = disp ∧
    aggregate_bounce_lan_argAfter due = due ∧
    add_streak_features_argAfter due = add_streak_features due ∧
    add_streak_features_argAfter due ≠ due := by
  refine ⟨rfl, rfl, rfl, rfl, rfl, ?_⟩
  intro heq
  unfold add_streak_features_argAfter at heq
  obtain ⟨r, hrmem, hrfield⟩ := hnew
  obtain ⟨j, hj, hjr⟩ := List.getElem_of_mem hrmem
  have h1 : (add_streak_features due)[j]? = some
      { due[j] with current_pl_streak := some (currentPlAt due j),
                    is_pl_streak_end := some (streakEndAt due j) } := by
    unfold add_streak_features
    rw [List.getElem?_map, List.getElem?_range hj, Option.map_some',
      List.getElem?_eq_getElem hj]
  have h2 : (add_streak_features due)[j]? = some due[j] := by
    rw [heq]
    exact List.getElem?_eq_getElem hj
  rw [h1] at h2
  have h3 := Option.some.inj h2
  rcases hrfield with hcf | hef
  · exact absurd (congrArg DueRow.current_pl_streak h3)
      (by rw [hjr, hcf]; simp)
  · exact absurd (congrArg DueRow.is_pl_streak_end h3)
      (by rw [hjr, hef]; simp)

/-- Witness for C7 at a concrete one-row due table whose streak columns
are absent. -/
theorem core_operations_frame_effects_witness :
    (∃ r ∈ [exDueA], r.current_pl_streak = none ∨ r.is_pl_streak_end = none) ∧
      (training_set_split_argAfter [exDispRow] = [exDispRow] ∧
      merge_dispositions_to_dues_argAfter [exDueA] [exDispRow] =
        ([exDueA], [exDispRow]) ∧
      aggregate_disposition_lan_argAfter [exDispRow] = [exDispRow] ∧
      aggregate_bounce_lan_argAfter [exDueA] = [exDueA] ∧
      add_streak_features_argAfter [exDueA] = add_streak_features [exDueA] ∧
      add_streak_features_argAfter [exDueA] ≠ [exDueA]) :=
  ⟨⟨exDueA, List.mem_singleton.mpr rfl, Or.inl rfl⟩,
    core_operations_frame_effects [exDueA] [exDispRow] [exDispRow]
      ⟨exDueA, List.mem_singleton.mpr rfl, Or.inl rfl⟩⟩
